import Mathlib

/-! pvc_aerophone: OSC codec, dispatcher and discovery handshake

A shallow embedding of `osc_client.h` and `main.cpp`.

* Bytes are natural numbers; a C array or heap block is a `List Nat` whose
  length is the size of the object, and a pointer into it is the list with the
  bytes before the pointer dropped.
* Every access that leaves its object is undefined behaviour in C; the
  embedding reports it as a `Fault` instead of inventing a value.
* Memory returned by `malloc` is uninitialised: its content is a parameter
  `junk : Nat → Nat` giving the byte found at each offset.
* `int` and `size_t` values stay far below `2^31` (every object here is at most
  a few hundred bytes long), so they are `Int` and `Nat` without wrap-around;
  `uint32_t` values are reduced modulo `2^32` where the code can overflow them.
-/

namespace PvcAerophone

set_option maxRecDepth 100000

/-! ## Memory primitives -/

/-- Undefined behaviour the embedding can run into. -/
inductive Fault where
  /-- a read that runs past the end of the object it started in -/
  | read_overrun
  /-- a write past the end of `OSCMessage.address` -/
  | address_overflow
  /-- a write past the end of `OSCMessage.format` -/
  | format_overflow
  /-- a write past the end of `OSCMessage.data` -/
  | data_overflow
  /-- a write past the end of the buffer allocated by `flatten_oscmessage` -/
  | stream_overflow
  /-- a negative `int` converted to `size_t` and used as a byte count -/
  | negative_count
  /-- a null pointer handed to `strcmp` -/
  | null_pointer
  /-- `va_arg` read with a type the caller did not pass, or past the last argument -/
  | bad_va_arg
  deriving DecidableEq, Repr

/-- The bytes of a string, without terminator. -/
def bytes_of (s : String) : List Nat := s.toList.map Char.toNat

/-- A string literal as it lies in memory: its bytes and the terminating NUL. -/
def literal (s : String) : List Nat := bytes_of s ++ [0]

/-- The content of a freshly allocated block of `size` bytes. -/
def malloc (junk : Nat → Nat) (size : Nat) : List Nat := (List.range size).map junk

/-- The function `strlen(p)`: the number of bytes before the first NUL, scanning the
object `p` points into; `none` when the scan leaves the object. -/
def strlen : List Nat → Option Nat
  | [] => none
  | b :: bs => if b = 0 then some 0 else (strlen bs).map (· + 1)

/-- Read `n` bytes at offset `off` of an object. -/
def load (obj : List Nat) (off n : Nat) : Except Fault (List Nat) :=
  if off + n ≤ obj.length then .ok ((obj.drop off).take n) else .error .read_overrun

/-- Write `bytes` at offset `off` of an object; `overflow` is the fault raised when
the write does not fit. -/
def store (overflow : Fault) (obj : List Nat) (off : Nat) (bytes : List Nat) :
    Except Fault (List Nat) :=
  if off + bytes.length ≤ obj.length then
    .ok (obj.take off ++ bytes ++ obj.drop (off + bytes.length))
  else .error overflow

/-- The function `strcpy(dst + off, src)`: copies the string at `src` with its terminator. -/
def strcpy (overflow : Fault) (dst : List Nat) (off : Nat) (src : List Nat) :
    Except Fault (List Nat) :=
  match strlen src with
  | none => .error .read_overrun
  | some n => store overflow dst off (src.take (n + 1))

/-- The string held in a `char` array: the bytes before the first NUL. -/
def c_str : List Nat → List Nat
  | [] => []
  | b :: bs => if b = 0 then [] else b :: c_str bs

/-! ## osc_client.h -/

def OSC_MSG_SIZE : Nat := 256
def OSC_PORT : Nat := 8000
def BROADCAST_IP : String := "192.168.2.255"
def INSTRUMENT_NAME : String := "pvc_aerophone"

def OSC_SIZE_ADDRESS : Nat := 64
def OSC_SIZE_FORMAT : Nat := 16
def OSC_SIZE_DATA : Nat := 128

/-- The struct `OSCMessage`: three fixed-capacity arrays and the payload size. -/
structure OSCMessage where
  address : List Nat
  format : List Nat
  data : List Nat
  data_size : Int
  deriving DecidableEq, Repr

/-- The function `OSC_SIZE(str)`: `strlen(str) + 1` rounded up to a multiple of 4. -/
def OSC_SIZE (str : List Nat) : Except Fault Nat :=
  match strlen str with
  | none => .error .read_overrun
  | some n =>
    let len := n + 1
    .ok (if len % 4 ≠ 0 then len + (4 - len % 4) else len)

/-- Byte order of the host processor. -/
inductive Endian where
  | little
  | big
  deriving DecidableEq, Repr

/-- The object representation of a `uint32_t`: what `memcpy(dst, &x, sizeof(uint32_t))`
copies out of the variable `x`. -/
def bytes_of_u32 (host : Endian) (x : Nat) : List Nat :=
  match host with
  | .little => [x % 256, x / 256 % 256, x / 65536 % 256, x / 16777216 % 256]
  | .big => [x / 16777216 % 256, x / 65536 % 256, x / 256 % 256, x % 256]

/-- The value of a `uint32_t` variable after `memcpy(&x, src, sizeof(uint32_t))` put
the four bytes `bs` into it (a list of another length is never passed). -/
def u32_of_bytes (host : Endian) (bs : List Nat) : Nat :=
  match host, bs with
  | .little, [b0, b1, b2, b3] => b0 + b1 * 256 + b2 * 65536 + b3 * 16777216
  | .big, [b0, b1, b2, b3] => b0 * 16777216 + b1 * 65536 + b2 * 256 + b3
  | _, _ => 0

/-- One variadic argument as the caller pushed it (after default promotions). For a
`double` only the IEEE-754 single-precision bit pattern of its conversion to `float`
is kept. A pointer is the memory it points to. -/
inductive VaArg where
  | int (v : Int)
  | double (float_bits : Nat)
  | pointer (mem : List Nat)
  deriving DecidableEq, Repr

/-- The block `malloc(sizeof(OSCMessage))` seen through the struct: uninitialised. -/
def malloc_OSCMessage (junk : Nat → Nat) : OSCMessage :=
  let block := malloc junk (OSC_SIZE_ADDRESS + OSC_SIZE_FORMAT + OSC_SIZE_DATA)
  { address := block.take OSC_SIZE_ADDRESS
    format := (block.drop OSC_SIZE_ADDRESS).take OSC_SIZE_FORMAT
    data := (block.drop (OSC_SIZE_ADDRESS + OSC_SIZE_FORMAT)).take OSC_SIZE_DATA
    data_size := junk (OSC_SIZE_ADDRESS + OSC_SIZE_FORMAT + OSC_SIZE_DATA) }

/-- The `while(format[j] != '\0') switch(format[j++])` loop of `build_osc_message`:
`format` is the memory from `format + j` on, `i` the write position in `data`.
Returns the data array and the final `i`. -/
def build_arguments (host : Endian) :
    List Nat → List VaArg → List Nat → Nat → Except Fault (List Nat × Nat)
  | [], _, _, _ => .error .read_overrun
  | c :: format, args, data, i =>
    if c = 0 then .ok (data, i)
    else if c = 105 then  -- case 'i'
      match args with
      | .int v :: args =>
        let int_container := (v % 4294967296).toNat
        match store .data_overflow data i (bytes_of_u32 host int_container) with
        | .error f => .error f
        | .ok data => build_arguments host format args data (i + 4)
      | _ => .error .bad_va_arg
    else if c = 102 then  -- case 'f'
      match args with
      | .double float_container :: args =>
        match store .data_overflow data i (bytes_of_u32 host float_container) with
        | .error f => .error f
        | .ok data => build_arguments host format args data (i + 4)
      | _ => .error .bad_va_arg
    else if c = 115 then  -- case 's'
      match args with
      | .pointer string_container :: args =>
        match strlen string_container, OSC_SIZE string_container with
        | some l, .ok n =>
          let m := l + 1
          match store .data_overflow data i (string_container.take m) with
          | .error f => .error f
          | .ok data =>
            match store .data_overflow data (i + m) (List.replicate (n - m) 0) with
            | .error f => .error f
            | .ok data => build_arguments host format args data (i + n)
        | _, _ => .error .read_overrun
      | _ => .error .bad_va_arg
    else build_arguments host format args data i

/-- The function `build_osc_message(address, format, ...)`. -/
def build_osc_message (host : Endian) (junk : Nat → Nat) (address format : List Nat)
    (args : List VaArg) : Except Fault OSCMessage :=
  let msg := malloc_OSCMessage junk
  match strcpy .address_overflow msg.address 0 address with
  | .error f => .error f
  | .ok address' =>
    match strcpy .format_overflow msg.format 0 format with
    | .error f => .error f
    | .ok format' =>
      match build_arguments host (format.drop 1) args msg.data 0 with
      | .error f => .error f
      | .ok (data, i) =>
        .ok { address := address', format := format', data := data, data_size := i }

/-- The function `flatten_oscmessage(msg, len_ptr)`: the returned buffer and the value
stored in `*len_ptr`. The byte-by-byte copy loop is one block copy of
`data[0 .. data_size)`. -/
def flatten_oscmessage (msg : OSCMessage) : Except Fault (List Nat × Int) :=
  match OSC_SIZE msg.address, OSC_SIZE msg.format with
  | .ok padded_address_length, .ok padded_format_length =>
    let length : Int := padded_address_length + padded_format_length + msg.data_size
    if length < 0 then .error .negative_count
    else
      let stream := List.replicate length.toNat 0
      match strcpy .stream_overflow stream 0 msg.address with
      | .error f => .error f
      | .ok stream =>
        match strcpy .stream_overflow stream padded_address_length msg.format with
        | .error f => .error f
        | .ok stream =>
          if msg.data_size ≤ 0 then .ok (stream, length)
          else
            match load msg.data 0 msg.data_size.toNat with
            | .error f => .error f
            | .ok bytes =>
              match store .stream_overflow stream
                  (padded_address_length + padded_format_length) bytes with
              | .error f => .error f
              | .ok stream => .ok (stream, length)
  | .error f, _ => .error f
  | _, .error f => .error f

/-- The class `SocketAddress`: an IP address in text form and a port. -/
structure SocketAddress where
  ip : String
  port : Nat
  deriving DecidableEq, Repr

/-- The method `SocketAddress::get_ip_address()`: pointer to the text form of the address. -/
def SocketAddress.get_ip_address (a : SocketAddress) : List Nat := literal a.ip

/-- The data members of `OSCClient` (the two sockets live in the transport). -/
structure OSCClient where
  controller : SocketAddress
  address : SocketAddress
  deriving DecidableEq, Repr

/-- What the network hands to one `recvfrom` call: an error code (negative; this
includes `NSAPI_ERROR_WOULD_BLOCK` on a non-blocking socket) or one datagram
with the address of its sender. -/
inductive Recv where
  | error (code : Int)
  | datagram (sender : SocketAddress) (bytes : List Nat)
  deriving DecidableEq, Repr

/-- The call `udp.recvfrom(&peer, buffer, size)`: returns the byte count or error code,
the new content of `peer` and the new content of `buffer`. At most `size` bytes of
the datagram are stored. -/
def recvfrom (net : Recv) (peer : SocketAddress) (buffer : List Nat) (size : Nat) :
    Int × SocketAddress × List Nat :=
  match net with
  | .error code => (code, peer, buffer)
  | .datagram sender bytes =>
    (((bytes.take size).length : Nat), sender,
      bytes.take size ++ buffer.drop (bytes.take size).length)

/-- Lines 237-266 of `OSCClient::receive`: decoding `buffer`, of which the first `recv`
bytes were received, into a cleared message. -/
def receive_decode (buffer : List Nat) (recv : Int) : Except Fault OSCMessage :=
  -- memset(msg, 0, sizeof(OSCMessage))
  let msg : OSCMessage :=
    { address := List.replicate OSC_SIZE_ADDRESS 0
      format := List.replicate OSC_SIZE_FORMAT 0
      data := List.replicate OSC_SIZE_DATA 0
      data_size := 0 }
  match strlen buffer with
  | none => .error .read_overrun
  | some n =>
    let address_length := n + 1
    match strcpy .address_overflow msg.address 0 buffer with
    | .error f => .error f
    | .ok address =>
      let posn := address_length
      let offset := posn
      let padding := 4 - offset % 4
      let posn := if offset % 4 ≠ 0 then posn + padding else posn
      match strlen (buffer.drop posn) with
      | none => .error .read_overrun
      | some n =>
        let format_length := n + 1
        match strcpy .format_overflow msg.format 0 (buffer.drop posn) with
        | .error f => .error f
        | .ok format =>
          let posn := posn + format_length
          let offset := posn
          let padding := 4 - offset % 4
          let posn := if offset % 4 ≠ 0 then posn + padding else posn
          let count : Int := recv - address_length - format_length
          if count < 0 then .error .negative_count
          else
            match load buffer posn count.toNat with
            | .error f => .error f
            | .ok bytes =>
              match store .data_overflow msg.data 0 bytes with
              | .error f => .error f
              | .ok data =>
                .ok { address := address, format := format, data := data, data_size := count }

/-- What a call of `OSCClient::receive` leaves behind. -/
structure Received where
  /-- the returned `nsapi_size_or_error_t` -/
  ret : Int
  /-- the content of `*msg` afterwards -/
  msg : OSCMessage
  /-- the client object afterwards -/
  self : OSCClient
  deriving DecidableEq, Repr

/-- The method `OSCClient::receive(msg)`. `junk` is the content of the freshly allocated
receive buffer, `net` what the socket delivers. -/
def OSCClient.receive (self : OSCClient) (junk : Nat → Nat) (net : Recv) (msg : OSCMessage) :
    Except Fault Received :=
  let buffer := malloc junk OSC_MSG_SIZE
  match recvfrom net self.controller buffer OSC_MSG_SIZE with
  | (recv, controller, buffer) =>
    let self : OSCClient := { self with controller := controller }
    if recv ≤ 0 then .ok { ret := recv, msg := msg, self := self }
    else
      match receive_decode buffer recv with
      | .error f => .error f
      | .ok msg => .ok { ret := recv, msg := msg, self := self }

/-- The two sockets of an `OSCClient`. -/
inductive Socket where
  | udp_broadcast
  | udp
  deriving DecidableEq, Repr

/-- A call on a socket, as `OSCClient::connect` issues them. -/
inductive Call where
  | set_blocking (s : Socket) (blocking : Bool)
  | set_broadcast (s : Socket) (broadcast : Bool)
  | sendto (s : Socket) (peer : SocketAddress) (bytes : List Nat)
  | bind (s : Socket) (port : Nat)
  | recvfrom (s : Socket) (size : Nat)
  deriving DecidableEq, Repr

/-- The results the transport gives to the three calls of `connect` that return one. -/
structure Handshake where
  sendto_result : Int
  bind_status : Int
  recvfrom_result : Recv
  deriving DecidableEq, Repr

/-- How `connect` ends. -/
inductive Ending where
  /-- the function returned; the client object is as given -/
  | returned (self : OSCClient)
  /-- the call `exit(status)` terminated the process -/
  | exit (status : Int)
  /-- undefined behaviour -/
  | fault (f : Fault)
  deriving DecidableEq, Repr

/-- The method `OSCClient::connect()`: the socket calls issued, in order, and how the
function ends. -/
def OSCClient.connect (self : OSCClient) (host : Endian) (junk : Nat → Nat) (net : Handshake) :
    List Call × Ending :=
  let t := [Call.set_blocking .udp_broadcast true]
  match build_osc_message host junk (literal "/NoticeMe") (literal ",ss")
      [.pointer (literal INSTRUMENT_NAME), .pointer self.address.get_ip_address] with
  | .error f => (t, .fault f)
  | .ok msg =>
    let t := t ++ [Call.set_broadcast .udp_broadcast true]
    let broadcast : SocketAddress := { ip := BROADCAST_IP, port := OSC_PORT }
    match flatten_oscmessage msg with
    | .error f => (t, .fault f)
    | .ok (msg_buf, _) =>
      let size_or_error := net.sendto_result
      let t := t ++ [Call.sendto .udp_broadcast broadcast msg_buf]
      if size_or_error < 0 then (t, .exit 1)
      else
        let t := t ++ [Call.set_broadcast .udp_broadcast false,
          Call.set_blocking .udp_broadcast false, Call.set_blocking .udp true,
          Call.bind .udp (OSC_PORT + 1)]
        let buffer := malloc junk OSC_MSG_SIZE
        match recvfrom net.recvfrom_result broadcast buffer OSC_MSG_SIZE with
        | (size_or_error, broadcast, _) =>
          let t := t ++ [Call.recvfrom .udp OSC_MSG_SIZE]
          if size_or_error < 0 then (t, .exit 1)
          else
            (t ++ [Call.set_blocking .udp false], .returned { self with controller := broadcast })

/-! ## main.cpp -/

/-- The function `swap_endian(number)`. Every shifted byte is below `2^8`, so no shift leaves
the 32 bits of a `uint32_t`. -/
def swap_endian (number : Nat) : Nat :=
  let byte0 := (number &&& 0x000000FF) >>> 0
  let byte1 := (number &&& 0x0000FF00) >>> 8
  let byte2 := (number &&& 0x00FF0000) >>> 16
  let byte3 := (number &&& 0xFF000000) >>> 24
  (byte0 <<< 24) ||| (byte1 <<< 16) ||| (byte2 <<< 8) ||| (byte3 <<< 0)

/-- Skipping the leading delimiters, the first step of `strtok`. -/
def skip_delimiters (delim : Nat) : List Nat → List Nat
  | [] => []
  | b :: bs => if b = delim then skip_delimiters delim bs else b :: bs

/-- The bytes before the next delimiter. -/
def token_bytes (delim : Nat) : List Nat → List Nat
  | [] => []
  | b :: bs => if b = delim then [] else b :: token_bytes delim bs

/-- The bytes after the next delimiter. -/
def after_token (delim : Nat) : List Nat → List Nat
  | [] => []
  | b :: bs => if b = delim then bs else after_token delim bs

/-- One call of `strtok` with a one-character delimiter set, on the string `s` (the
bytes before its terminator) that the scan is positioned at: the token, or `none`
for a null pointer, and the string the next `strtok(NULL, ...)` resumes at. -/
def strtok (delim : Nat) (s : List Nat) : Option (List Nat) × List Nat :=
  match skip_delimiters delim s with
  | [] => (none, [])
  | b :: bs => (some (token_bytes delim (b :: bs)), after_token delim (b :: bs))

/-- The test `strcmp(p, lit) == 0` against a string literal: `strcmp` stops at the first
difference, so it looks at no more bytes of `p` than the literal has with its NUL. -/
def strcmp_eq (p : List Nat) (lit : String) : Bool :=
  p.take (literal lit).length == literal lit

/-- The two `DriverBoard` objects. -/
inductive Board where
  | left
  | right
  deriving DecidableEq, Repr

/-- A call `board.play(pitch, velocity)`. -/
structure Play where
  board : Board
  pitch : Nat
  velocity : Nat
  deriving DecidableEq, Repr

/-- Lines 56-61 of `osc_dispatch`, the argument extraction of the play handler: two
`memcpy` of 4 bytes out of `msg->data`, each followed by `swap_endian`. Returns
`(pitch, velocity)`. -/
def play_arguments (host : Endian) (data : List Nat) : Except Fault (Nat × Nat) :=
  match load data 0 4, load data 4 4 with
  | .ok p, .ok v => .ok (swap_endian (u32_of_bytes host p), swap_endian (u32_of_bytes host v))
  | .error f, _ => .error f
  | _, .error f => .error f

/-- The function `osc_dispatch(msg)`: the calls made on the driver boards, in order. -/
def osc_dispatch (host : Endian) (msg : OSCMessage) : Except Fault (List Play) :=
  match strlen msg.address with
  | none => .error .read_overrun
  | some n =>
    match strtok 47 (msg.address.take n) with
    | (none, _) => .error .null_pointer
    | (some token, rest) =>
      if !strcmp_eq (token ++ [0]) INSTRUMENT_NAME then .ok []
      else
        match strtok 47 rest with
        | (none, _) => .error .null_pointer
        | (some token, _) =>
          if strcmp_eq (token ++ [0]) "play" then
            if !strcmp_eq msg.format ",ii" then .ok []
            else
              match play_arguments host msg.data with
              | .error f => .error f
              | .ok (pitch, velocity) =>
                if pitch < 48 then .ok [{ board := .left, pitch := pitch, velocity := velocity }]
                else if pitch < 60 then
                  .ok [{ board := .right, pitch := pitch, velocity := velocity }]
                else .ok []
          else .ok []

/-- Spec-side definition, from the words "splits the address on `/` into path segments":
the non-empty runs of bytes between slashes. -/
def path_segments (path : List Nat) : List (List Nat) :=
  (path.splitOn 47).filter (fun t => !t.isEmpty)

/-- Transport contract: an error result of `recvfrom` is a negative code. -/
def Recv.valid : Recv → Prop
  | .error code => code < 0
  | .datagram _ _ => True

/-! ## osc_client.h, continued -/

/-- What a call of `OSCClient::send` leaves behind. -/
structure Sent where
  /-- the returned `nsapi_size_or_error_t` -/
  ret : Int
  /-- the `sendto` issued on the socket -/
  call : Call
  /-- the client object afterwards -/
  self : OSCClient
  deriving DecidableEq, Repr

/-- The method `OSCClient::send(msg)`; `sendto_result` is what the socket returns. The
controller address is handed to `sendto` as a const reference. -/
def OSCClient.send (self : OSCClient) (sendto_result : Int) (msg : OSCMessage) :
    Except Fault Sent :=
  match flatten_oscmessage msg with
  | .error f => .error f
  | .ok (stream, _) =>
    let out := sendto_result
    .ok { ret := out, call := Call.sendto .udp self.controller stream, self := self }

/-- What lines 240-262 of `OSCClient::receive` have computed when the payload copy starts. -/
structure DecodedStrings where
  /-- the content of `msg->address` -/
  address : List Nat
  /-- the content of `msg->format` -/
  format : List Nat
  address_length : Nat
  format_length : Nat
  /-- the offset in the buffer the type tag was read from -/
  format_offset : Nat
  /-- the offset in the buffer the read pointer ends at -/
  data_offset : Nat
  deriving DecidableEq, Repr

/-- Lines 240-262 of `OSCClient::receive` on their own: the two `strcpy` into the cleared
message and the pointer arithmetic between them. -/
def receive_strings (buffer : List Nat) : Except Fault DecodedStrings :=
  match strlen buffer with
  | none => .error .read_overrun
  | some n =>
    let address_length := n + 1
    match strcpy .address_overflow (List.replicate OSC_SIZE_ADDRESS 0) 0 buffer with
    | .error f => .error f
    | .ok address =>
      let posn := address_length
      let offset := posn
      let padding := 4 - offset % 4
      let posn := if offset % 4 ≠ 0 then posn + padding else posn
      match strlen (buffer.drop posn) with
      | none => .error .read_overrun
      | some n =>
        let format_length := n + 1
        match strcpy .format_overflow (List.replicate OSC_SIZE_FORMAT 0) 0 (buffer.drop posn) with
        | .error f => .error f
        | .ok format =>
          let format_offset := posn
          let posn := posn + format_length
          let offset := posn
          let padding := 4 - offset % 4
          let posn := if offset % 4 ≠ 0 then posn + padding else posn
          .ok { address := address, format := format, address_length := address_length,
                format_length := format_length, format_offset := format_offset,
                data_offset := posn }

/-- The bytes one `case` of the loop in `build_osc_message` stores for an argument. -/
def stored_bytes (host : Endian) : VaArg → List Nat
  | .int v => bytes_of_u32 host (v % 4294967296).toNat
  | .double float_bits => bytes_of_u32 host float_bits
  | .pointer mem =>
    match OSC_SIZE mem with
    | .ok n => mem.take ((c_str mem).length + 1) ++ List.replicate (n - ((c_str mem).length + 1)) 0
    | .error _ => []

/-- Spec-side definition, from the words "integer and float arguments occupy exactly 4
bytes and string arguments occupy `OSC_SIZE(s)` bytes": the encoded size of an argument. -/
def encoded_size : VaArg → Nat
  | .int _ => 4
  | .double _ => 4
  | .pointer mem =>
    match OSC_SIZE mem with
    | .ok n => n
    | .error _ => 0

/-- Spec-side definition: a type-tag character matches the argument passed for it (`i` with
an `int`, `f` with a `double`, `s` with a pointer to a terminated string). -/
def tag_matches (c : Nat) : VaArg → Prop
  | .int _ => c = 105
  | .double _ => c = 102
  | .pointer mem => c = 115 ∧ 0 ∈ mem

/-! ## Lemmas on the memory primitives -/

theorem strlen_append_nul (s rest : List Nat) (hs : 0 ∉ s) :
    strlen (s ++ 0 :: rest) = some s.length := by
  induction s with
  | nil => simp [strlen]
  | cons b bs ih =>
    have hb : b ≠ 0 := fun h => hs (by simp [h])
    have hbs : 0 ∉ bs := fun h => hs (by simp [h])
    simp [strlen, hb, ih hbs]

theorem c_str_append_nul (s rest : List Nat) (hs : 0 ∉ s) :
    c_str (s ++ 0 :: rest) = s := by
  induction s with
  | nil => simp [c_str]
  | cons b bs ih =>
    have hb : b ≠ 0 := fun h => hs (by simp [h])
    have hbs : 0 ∉ bs := fun h => hs (by simp [h])
    simp [c_str, hb, ih hbs]

theorem c_str_no_nul (a : List Nat) : 0 ∉ c_str a := by
  induction a with
  | nil => simp [c_str]
  | cons b bs ih =>
    by_cases hb : b = 0
    · simp [c_str, hb]
    · simp only [c_str, hb, ite_false, List.mem_cons, not_or]
      exact ⟨fun h => hb h.symm, ih⟩

/-- An array that holds a NUL splits into its string, the NUL and the rest. -/
theorem split_at_nul (a : List Nat) (h : 0 ∈ a) :
    a = c_str a ++ 0 :: a.drop ((c_str a).length + 1) := by
  induction a with
  | nil => simp at h
  | cons b bs ih =>
    by_cases hb : b = 0
    · subst hb; simp [c_str]
    · have hbs : 0 ∈ bs := by
        rcases List.mem_cons.mp h with h | h
        · exact absurd h.symm hb
        · exact h
      have := ih hbs
      simp only [c_str, hb, ite_false, List.cons_append, List.length_cons, List.drop_succ_cons,
        List.cons.injEq, true_and]
      exact this

theorem strlen_of_mem (a : List Nat) (h : 0 ∈ a) : strlen a = some (c_str a).length := by
  have hsplit := split_at_nul a h
  have := strlen_append_nul (c_str a) (a.drop ((c_str a).length + 1)) (c_str_no_nul a)
  rw [← hsplit] at this
  exact this

theorem strlen_none_of_not_mem (a : List Nat) (h : 0 ∉ a) : strlen a = none := by
  induction a with
  | nil => rfl
  | cons b bs ih =>
    have hb : b ≠ 0 := fun hb => h (by simp [hb])
    have hbs : 0 ∉ bs := fun hbs => h (by simp [hbs])
    simp [strlen, hb, ih hbs]

/-- The arithmetic of `OSC_SIZE`: what the rounding step returns for a length. -/
theorem OSC_SIZE_of_mem (a : List Nat) (h : 0 ∈ a) :
    OSC_SIZE a = .ok (if ((c_str a).length + 1) % 4 ≠ 0
      then (c_str a).length + 1 + (4 - ((c_str a).length + 1) % 4)
      else (c_str a).length + 1) := by
  simp only [OSC_SIZE, strlen_of_mem a h]

theorem take_c_str_succ (a : List Nat) (h : 0 ∈ a) :
    a.take ((c_str a).length + 1) = c_str a ++ [0] := by
  have hsplit := split_at_nul a h
  generalize c_str a = s at hsplit ⊢
  generalize a.drop (s.length + 1) = r at hsplit
  subst hsplit
  simp [List.take_append_eq_append_take]

theorem strcpy_of_mem (fl : Fault) (dst : List Nat) (off : Nat) (src : List Nat) (h : 0 ∈ src) :
    strcpy fl dst off src = store fl dst off (c_str src ++ [0]) := by
  simp only [strcpy, strlen_of_mem src h, take_c_str_succ src h]

theorem store_middle (fl : Fault) (x y z bytes : List Nat) (h : bytes.length = y.length) :
    store fl (x ++ y ++ z) x.length bytes = .ok (x ++ bytes ++ z) := by
  have h1 : x.length + bytes.length ≤ (x ++ y ++ z).length := by
    simp only [List.length_append]; omega
  have h2 : (x ++ y ++ z).take x.length = x := by
    rw [List.append_assoc]; exact List.take_left' rfl
  have h3 : (x ++ y ++ z).drop (x.length + bytes.length) = z := by
    exact List.drop_left' (by simp only [List.length_append]; omega)
  simp only [store, h1, h2, h3, if_true]

theorem load_prefix (obj : List Nat) (n : Nat) (h : n ≤ obj.length) :
    load obj 0 n = .ok (obj.take n) := by
  simp [load, h]

/-- The value of `OSC_SIZE` for a terminated array, with its two bounds. -/
theorem OSC_SIZE_bounds (a : List Nat) (h : 0 ∈ a) :
    ∃ n, OSC_SIZE a = .ok n ∧ n % 4 = 0 ∧ (c_str a).length + 1 ≤ n ∧ n < (c_str a).length + 5 := by
  refine ⟨_, OSC_SIZE_of_mem a h, ?_⟩
  split <;> omega

/-- The layout of the flattened stream, for payload length `n`. -/
theorem flatten_layout (msg : OSCMessage) (pal pfl n : Nat)
    (ha : 0 ∈ msg.address) (hf : 0 ∈ msg.format)
    (hpa : OSC_SIZE msg.address = .ok pal) (hpf : OSC_SIZE msg.format = .ok pfl)
    (hn : msg.data_size = (n : Int)) (hle : n ≤ msg.data.length) :
    flatten_oscmessage msg = .ok
      (c_str msg.address ++ List.replicate (pal - (c_str msg.address).length) 0 ++
        (c_str msg.format ++ List.replicate (pfl - (c_str msg.format).length) 0) ++
        msg.data.take n, ((pal + pfl + n : Nat) : Int)) := by
  obtain ⟨pa, hpa', -, hpa1, -⟩ := OSC_SIZE_bounds msg.address ha
  obtain ⟨pf, hpf', -, hpf1, -⟩ := OSC_SIZE_bounds msg.format hf
  rw [hpa] at hpa'; rw [hpf] at hpf'
  cases hpa'; cases hpf'
  generalize hA : c_str msg.address = A at *
  generalize hF : c_str msg.format = F at *
  have hlen : ¬ ((pal : Int) + (pfl : Int) + msg.data_size < 0) := by rw [hn]; omega
  have htoNat : ((pal : Int) + (pfl : Int) + msg.data_size).toNat = pal + pfl + n := by
    rw [hn]; omega
  -- the zeroed stream, cut at the places that get written
  have hz : List.replicate (pal + pfl + n) 0 =
      [] ++ List.replicate (A.length + 1) 0 ++ (List.replicate (pal - (A.length + 1)) 0 ++
        List.replicate (F.length + 1) 0 ++ List.replicate (pfl - (F.length + 1)) 0 ++
        List.replicate n 0) := by
    simp only [List.nil_append, ← List.replicate_add]
    congr 1; omega
  have hs1 : strcpy .stream_overflow (List.replicate (pal + pfl + n) 0) 0 msg.address = .ok
      (A ++ [0] ++ (List.replicate (pal - (A.length + 1)) 0 ++
        List.replicate (F.length + 1) 0 ++ List.replicate (pfl - (F.length + 1)) 0 ++
        List.replicate n 0)) := by
    rw [strcpy_of_mem _ _ _ _ ha, hA, hz]
    have := store_middle .stream_overflow [] (List.replicate (A.length + 1) 0)
      (List.replicate (pal - (A.length + 1)) 0 ++
        List.replicate (F.length + 1) 0 ++ List.replicate (pfl - (F.length + 1)) 0 ++
        List.replicate n 0) (A ++ [0]) (by simp)
    simpa using this
  have hs2 : strcpy .stream_overflow (A ++ [0] ++ (List.replicate (pal - (A.length + 1)) 0 ++
        List.replicate (F.length + 1) 0 ++ List.replicate (pfl - (F.length + 1)) 0 ++
        List.replicate n 0)) pal msg.format = .ok
      ((A ++ [0] ++ List.replicate (pal - (A.length + 1)) 0) ++ (F ++ [0]) ++
        (List.replicate (pfl - (F.length + 1)) 0 ++ List.replicate n 0)) := by
    rw [strcpy_of_mem _ _ _ _ hf, hF]
    have := store_middle .stream_overflow (A ++ [0] ++ List.replicate (pal - (A.length + 1)) 0)
      (List.replicate (F.length + 1) 0)
      (List.replicate (pfl - (F.length + 1)) 0 ++ List.replicate n 0) (F ++ [0]) (by simp)
    have hl : (A ++ [0] ++ List.replicate (pal - (A.length + 1)) 0).length = pal := by
      simp only [List.length_append, List.length_replicate, List.length_singleton]; omega
    rw [hl] at this
    rw [← this]
    congr 1
    simp only [List.append_assoc]
  have hpadA : List.replicate (pal - A.length) 0 =
      [0] ++ List.replicate (pal - (A.length + 1)) 0 := by
    have : pal - A.length = 1 + (pal - (A.length + 1)) := by omega
    rw [this, List.replicate_add]; rfl
  have hpadF : List.replicate (pfl - F.length) 0 =
      [0] ++ List.replicate (pfl - (F.length + 1)) 0 := by
    have : pfl - F.length = 1 + (pfl - (F.length + 1)) := by omega
    rw [this, List.replicate_add]; rfl
  simp only [flatten_oscmessage, hpa, hpf, hlen, if_false, htoNat, hs1, hs2]
  rw [hpadA, hpadF]
  by_cases h0 : msg.data_size ≤ 0
  · have hn0 : n = 0 := by omega
    subst hn0
    simp only [h0, if_true, List.replicate_zero, List.append_nil, List.take_zero]
    simp [List.append_assoc, hn]
  · have h0' : ¬ ((n : Int) ≤ 0) := by rw [← hn]; exact h0
    simp only [h0, if_false, hn, Int.toNat_ofNat, load_prefix _ _ hle]
    have := store_middle .stream_overflow
      ((A ++ [0] ++ List.replicate (pal - (A.length + 1)) 0) ++ (F ++ [0]) ++
        List.replicate (pfl - (F.length + 1)) 0) (List.replicate n 0) [] (msg.data.take n)
      (by simp [hle])
    have hl : ((A ++ [0] ++ List.replicate (pal - (A.length + 1)) 0) ++ (F ++ [0]) ++
        List.replicate (pfl - (F.length + 1)) 0).length = pal + pfl := by
      simp only [List.length_append, List.length_replicate, List.length_singleton]; omega
    rw [hl] at this
    simp only [List.append_nil] at this
    simp only [List.append_assoc] at this ⊢
    rw [if_neg h0', this]
    simp only [Nat.cast_add]

theorem and_byte_mask_shift (x k : Nat) :
    (x &&& (255 <<< k)) >>> k = x / 2 ^ k % 256 := by
  have h : (x &&& (255 <<< k)) >>> k = (x >>> k) &&& (2 ^ 8 - 1) := by
    apply Nat.eq_of_testBit_eq
    intro i
    simp [Nat.testBit_shiftRight, Nat.testBit_and, Nat.testBit_shiftLeft]
  rw [h, Nat.and_pow_two_sub_one_eq_mod, Nat.shiftRight_eq_div_pow]

theorem or_of_bytes (b0 b1 b2 b3 : Nat) (h1 : b1 < 256) (h2 : b2 < 256) (h3 : b3 < 256) :
    (b0 <<< 24) ||| (b1 <<< 16) ||| (b2 <<< 8) ||| (b3 <<< 0) =
      b0 * 16777216 + b1 * 65536 + b2 * 256 + b3 := by
  have e3 := @Nat.mul_add_lt_is_or 8 b3 (by omega) b2
  have e2 := @Nat.mul_add_lt_is_or 16 (2 ^ 8 * b2 + b3) (by omega) b1
  have e1 := @Nat.mul_add_lt_is_or 24 (2 ^ 16 * b1 + (2 ^ 8 * b2 + b3)) (by omega) b0
  simp only [Nat.shiftLeft_eq, Nat.or_assoc, Nat.pow_zero, Nat.mul_one]
  rw [Nat.mul_comm b2, ← e3, Nat.mul_comm b1, ← e2, Nat.mul_comm b0, ← e1]
  omega

/-- What `swap_endian` computes, byte by byte. -/
theorem swap_endian_bytes (number : Nat) :
    swap_endian number =
      (number % 256) * 16777216 + (number / 256 % 256) * 65536 +
        (number / 65536 % 256) * 256 + number / 16777216 % 256 := by
  have m0 := and_byte_mask_shift number 0
  have m1 := and_byte_mask_shift number 8
  have m2 := and_byte_mask_shift number 16
  have m3 := and_byte_mask_shift number 24
  simp only [Nat.shiftLeft_zero, Nat.pow_zero, Nat.div_one] at m0
  have c1 : (255 <<< 8 : Nat) = 0x0000FF00 := by decide
  have c2 : (255 <<< 16 : Nat) = 0x00FF0000 := by decide
  have c3 : (255 <<< 24 : Nat) = 0xFF000000 := by decide
  rw [c1] at m1; rw [c2] at m2; rw [c3] at m3
  have c0 : (0x000000FF : Nat) = 255 := rfl
  simp only [swap_endian]
  rw [m0, m1, m2, m3]
  exact or_of_bytes _ _ _ _ (Nat.mod_lt _ (by decide)) (Nat.mod_lt _ (by decide))
    (Nat.mod_lt _ (by decide))

theorem swap_endian_little (b0 b1 b2 b3 : Nat)
    (h0 : b0 < 256) (h1 : b1 < 256) (h2 : b2 < 256) (h3 : b3 < 256) :
    swap_endian (u32_of_bytes .little [b0, b1, b2, b3]) =
      b0 * 16777216 + b1 * 65536 + b2 * 256 + b3 := by
  rw [swap_endian_bytes]
  simp only [u32_of_bytes]
  omega

theorem strlen_literal_append (s : String) (rest : List Nat) (h : 0 ∉ bytes_of s) :
    strlen (literal s ++ rest) = some (bytes_of s).length := by
  have : literal s ++ rest = bytes_of s ++ 0 :: rest := by simp [literal]
  rw [this]; exact strlen_append_nul _ _ h

theorem take_literal_append (s : String) (rest : List Nat) :
    (literal s ++ rest).take (bytes_of s).length = bytes_of s := by
  simp [literal, List.take_append_eq_append_take]

theorem play_arguments_little (b0 b1 b2 b3 b4 b5 b6 b7 : Nat) (rest : List Nat)
    (h : ∀ b ∈ [b0, b1, b2, b3, b4, b5, b6, b7], b < 256) :
    play_arguments .little (b0 :: b1 :: b2 :: b3 :: b4 :: b5 :: b6 :: b7 :: rest) =
      .ok (b0 * 16777216 + b1 * 65536 + b2 * 256 + b3,
        b4 * 16777216 + b5 * 65536 + b6 * 256 + b7) := by
  have h0 := h b0 (by simp); have h1 := h b1 (by simp); have h2 := h b2 (by simp)
  have h3 := h b3 (by simp); have h4 := h b4 (by simp); have h5 := h b5 (by simp)
  have h6 := h b6 (by simp); have h7 := h b7 (by simp)
  have l1 : load (b0 :: b1 :: b2 :: b3 :: b4 :: b5 :: b6 :: b7 :: rest) 0 4 =
      .ok [b0, b1, b2, b3] := by
    simp [load]
  have l2 : load (b0 :: b1 :: b2 :: b3 :: b4 :: b5 :: b6 :: b7 :: rest) 4 4 =
      .ok [b4, b5, b6, b7] := by
    simp [load]
  simp only [play_arguments, l1, l2, swap_endian_little _ _ _ _ h0 h1 h2 h3,
    swap_endian_little _ _ _ _ h4 h5 h6 h7]

theorem dispatch_play_message (host : Endian) (address_rest format_rest data : List Nat)
    (data_size : Int) :
    osc_dispatch host
      { address := literal "/pvc_aerophone/play" ++ address_rest
        format := literal ",ii" ++ format_rest
        data := data
        data_size := data_size } =
    match play_arguments host data with
    | .error f => .error f
    | .ok (pitch, velocity) =>
      if pitch < 48 then .ok [{ board := .left, pitch := pitch, velocity := velocity }]
      else if pitch < 60 then .ok [{ board := .right, pitch := pitch, velocity := velocity }]
      else .ok [] := by
  have hs := strlen_literal_append "/pvc_aerophone/play" address_rest (by decide)
  have ht := take_literal_append "/pvc_aerophone/play" address_rest
  have hl : (bytes_of "/pvc_aerophone/play").length = 19 := by decide
  rw [hl] at hs ht
  have htok : strtok 47 (bytes_of "/pvc_aerophone/play") =
      (some (bytes_of "pvc_aerophone"), bytes_of "play") := by decide
  have htok2 : strtok 47 (bytes_of "play") = (some (bytes_of "play"), []) := by decide
  have hc1 : strcmp_eq (bytes_of "pvc_aerophone" ++ [0]) INSTRUMENT_NAME = true := by decide
  have hc2 : strcmp_eq (bytes_of "play" ++ [0]) "play" = true := by decide
  have hc3 : strcmp_eq (literal ",ii" ++ format_rest) ",ii" = true := by
    have h4 : (literal ",ii").length = 4 := by decide
    simp only [strcmp_eq, h4]
    have : (literal ",ii" ++ format_rest).take 4 = literal ",ii" := by
      rw [List.take_left' h4]
    rw [this]; simp
  simp only [osc_dispatch, hs, ht, htok, htok2, hc1, hc2, hc3]
  rfl

theorem splitOn_slash_cons (xs : List Nat) :
    xs.splitOn 47 = token_bytes 47 xs ::
      (if 47 ∈ xs then (after_token 47 xs).splitOn 47 else []) := by
  induction xs with
  | nil => simp [token_bytes]
  | cons x xs ih =>
    by_cases hx : x = 47
    · subst hx
      simp [List.splitOn, List.splitOnP_cons, token_bytes, after_token]
    · have hx' : ¬ (47 = x) := fun h => hx h.symm
      have ih' : List.splitOnP (fun t => t == 47) xs = token_bytes 47 xs ::
          (if 47 ∈ xs then List.splitOnP (fun t => t == 47) (after_token 47 xs) else []) := ih
      simp only [List.splitOn, List.splitOnP_cons, beq_iff_eq, hx, if_false, token_bytes,
        after_token, List.mem_cons, hx', false_or, ih', List.modifyHead]

theorem path_segments_skip (s : List Nat) :
    path_segments (skip_delimiters 47 s) = path_segments s := by
  induction s with
  | nil => rfl
  | cons x xs ih =>
    by_cases hx : x = 47
    · subst hx
      simp only [skip_delimiters, if_true, ih]
      simp [path_segments, List.splitOn, List.splitOnP_cons]
    · simp only [skip_delimiters, hx, if_false]

theorem after_token_of_not_mem (xs : List Nat) (h : 47 ∉ xs) : after_token 47 xs = [] := by
  induction xs with
  | nil => rfl
  | cons x xs ih =>
    have hx : x ≠ 47 := fun hx => h (by simp [hx])
    have hxs : 47 ∉ xs := fun hxs => h (by simp [hxs])
    simp [after_token, hx, ih hxs]

theorem path_segments_cons (x : Nat) (xs : List Nat) (hx : x ≠ 47) :
    path_segments (x :: xs) =
      token_bytes 47 (x :: xs) :: path_segments (after_token 47 (x :: xs)) := by
  have hne : token_bytes 47 (x :: xs) = x :: token_bytes 47 xs := by
    simp [token_bytes, hx]
  rw [path_segments, splitOn_slash_cons, hne]
  by_cases hm : 47 ∈ x :: xs
  · simp [hm, path_segments]
  · rw [after_token_of_not_mem _ hm]
    simp [hm, path_segments]

/-- `strtok` returns the first path segment and resumes at the remaining ones. -/
theorem strtok_path_segments (s : List Nat) :
    (strtok 47 s).1 = (path_segments s).head? ∧
    path_segments (strtok 47 s).2 = (path_segments s).tail := by
  have hskip := path_segments_skip s
  unfold strtok
  cases hk : skip_delimiters 47 s with
  | nil =>
    rw [hk] at hskip
    have : path_segments s = [] := by rw [← hskip]; rfl
    simp [this]; rfl
  | cons b bs =>
    have hb : b ≠ 47 := by
      intro hb
      subst hb
      have : ∀ t : List Nat, ∀ cs, skip_delimiters 47 t ≠ 47 :: cs := by
        intro t
        induction t with
        | nil => intro cs h; simp [skip_delimiters] at h
        | cons y ys ih =>
          intro cs h
          by_cases hy : y = 47
          · simp only [skip_delimiters, hy, if_true] at h; exact ih cs h
          · simp only [skip_delimiters, hy, if_false] at h
            exact hy (List.cons.inj h).1
      exact this s bs hk
    rw [hk] at hskip
    rw [← hskip, path_segments_cons b bs hb]
    simp

theorem mem_of_mem_skip_delimiters (d : Nat) (s : List Nat) :
    ∀ b ∈ skip_delimiters d s, b ∈ s := by
  induction s with
  | nil => intro b hb; simp [skip_delimiters] at hb
  | cons x xs ih =>
    intro b hb
    by_cases hx : x = d
    · simp only [skip_delimiters, hx, if_true] at hb
      exact List.mem_cons_of_mem _ (ih b hb)
    · simp only [skip_delimiters, hx, if_false] at hb
      exact hb

theorem mem_of_mem_token_bytes (d : Nat) (s : List Nat) :
    ∀ b ∈ token_bytes d s, b ∈ s := by
  induction s with
  | nil => intro b hb; simp [token_bytes] at hb
  | cons x xs ih =>
    intro b hb
    by_cases hx : x = d
    · simp [token_bytes, hx] at hb
    · simp only [token_bytes, hx, if_false, List.mem_cons] at hb
      rcases hb with hb | hb
      · simp [hb]
      · exact List.mem_cons_of_mem _ (ih b hb)

theorem mem_of_mem_after_token (d : Nat) (s : List Nat) :
    ∀ b ∈ after_token d s, b ∈ s := by
  induction s with
  | nil => intro b hb; simp [after_token] at hb
  | cons x xs ih =>
    intro b hb
    by_cases hx : x = d
    · simp only [after_token, hx, if_true] at hb
      exact List.mem_cons_of_mem _ hb
    · simp only [after_token, hx, if_false] at hb
      exact List.mem_cons_of_mem _ (ih b hb)

/-- One `strtok` call against the segment list of the string it scans. -/
theorem strtok_cases (s : List Nat) :
    (path_segments s = [] ∧ strtok 47 s = (none, [])) ∨
    (∃ first more r, path_segments s = first :: more ∧ strtok 47 s = (some first, r) ∧
      path_segments r = more ∧ (∀ b ∈ first, b ∈ s) ∧ (∀ b ∈ r, b ∈ s)) := by
  have h := strtok_path_segments s
  have hskip := mem_of_mem_skip_delimiters 47 s
  unfold strtok at h ⊢
  cases hk : skip_delimiters 47 s with
  | nil =>
    left
    rw [hk] at h
    simp only at h
    have h1 := h.1
    cases hp : path_segments s with
    | nil => exact ⟨rfl, rfl⟩
    | cons a l => rw [hp] at h1; simp at h1
  | cons b bs =>
    right
    rw [hk] at h hskip
    simp only at h
    obtain ⟨h1, h2⟩ := h
    cases hp : path_segments s with
    | nil => rw [hp] at h1; simp at h1
    | cons a l =>
      rw [hp] at h1 h2
      simp only [List.head?_cons, Option.some.injEq, List.tail_cons] at h1 h2
      refine ⟨a, l, after_token 47 (b :: bs), rfl, ?_, h2, ?_, ?_⟩
      · simp only [h1]
      · intro c hc
        rw [← h1] at hc
        exact hskip c (mem_of_mem_token_bytes 47 _ c hc)
      · intro c hc
        exact hskip c (mem_of_mem_after_token 47 _ c hc)

theorem strcmp_eq_token (t : List Nat) (lit : String) (ht : 0 ∉ t) :
    strcmp_eq (t ++ [0]) lit = true ↔ t = bytes_of lit := by
  simp only [strcmp_eq, beq_iff_eq, literal, List.length_append, List.length_singleton]
  constructor
  · intro h
    by_cases hl : t.length ≤ (bytes_of lit).length
    · rw [List.take_of_length_le (by simp only [List.length_append, List.length_singleton]; omega)]
        at h
      exact List.append_cancel_right h
    · exfalso
      rw [List.take_append_of_le_length (by omega)] at h
      have : (0 : Nat) ∈ List.take ((bytes_of lit).length + 1) t := by rw [h]; simp
      exact ht (List.mem_of_mem_take this)
  · intro h
    rw [h]
    exact List.take_of_length_le (by simp)

theorem c_str_of_strcmp_eq (a : List Nat) (lit : String) (hl : 0 ∉ bytes_of lit)
    (h : strcmp_eq a lit = true) : c_str a = bytes_of lit := by
  simp only [strcmp_eq, beq_iff_eq] at h
  have : a = bytes_of lit ++ 0 :: a.drop (literal lit).length := by
    conv_lhs => rw [← List.take_append_drop (literal lit).length a, h]
    simp [literal]
  rw [this]
  exact c_str_append_nul _ _ hl

theorem take_strlen (a : List Nat) (n : Nat) (h : strlen a = some n) :
    0 ∈ a ∧ a.take n = c_str a := by
  have hm : 0 ∈ a := by
    by_contra hm
    rw [strlen_none_of_not_mem a hm] at h
    exact Option.noConfusion h
  refine ⟨hm, ?_⟩
  rw [strlen_of_mem a hm] at h
  cases h
  have hs := split_at_nul a hm
  generalize c_str a = s at hs ⊢
  generalize a.drop (s.length + 1) = r at hs
  subst hs
  exact List.take_left' rfl

/-- The decisions of `osc_dispatch`, read off the segment list of the address. -/
theorem osc_dispatch_by_segments (host : Endian) (msg : OSCMessage) (h : 0 ∈ msg.address) :
    osc_dispatch host msg =
      match path_segments (c_str msg.address) with
      | [] => .error .null_pointer
      | first :: more =>
        if first ≠ bytes_of INSTRUMENT_NAME then .ok []
        else
          match more with
          | [] => .error .null_pointer
          | second :: _ =>
            if second = bytes_of "play" then
              if !strcmp_eq msg.format ",ii" then .ok []
              else
                match play_arguments host msg.data with
                | .error f => .error f
                | .ok (pitch, velocity) =>
                  if pitch < 48 then
                    .ok [{ board := .left, pitch := pitch, velocity := velocity }]
                  else if pitch < 60 then
                    .ok [{ board := .right, pitch := pitch, velocity := velocity }]
                  else .ok []
            else .ok [] := by
  have hn := strlen_of_mem msg.address h
  have ht := (take_strlen msg.address _ hn).2
  have hnul := c_str_no_nul msg.address
  simp only [osc_dispatch, hn, ht]
  rcases strtok_cases (c_str msg.address) with ⟨hp, hk⟩ | ⟨first, more, r, hp, hk, hr, hf, hrm⟩
  · rw [hp, hk]
  · rw [hp, hk]
    have hf0 : 0 ∉ first := fun h0 => hnul (hf 0 h0)
    have hc1 := strcmp_eq_token first INSTRUMENT_NAME hf0
    by_cases h1 : first = bytes_of INSTRUMENT_NAME
    · subst h1
      have hc1' : strcmp_eq (bytes_of INSTRUMENT_NAME ++ [0]) INSTRUMENT_NAME = true :=
        hc1.mpr rfl
      simp only [hc1', Bool.not_true, Bool.false_eq_true, if_false, ne_eq, not_true_eq_false,
        not_false_eq_true]
      rcases strtok_cases r with ⟨hp2, hk2⟩ | ⟨second, more2, r2, hp2, hk2, -, hf2, -⟩
      · rw [hr] at hp2
        rw [hp2, hk2]
      · rw [hr] at hp2
        rw [hp2, hk2]
        have hs0 : 0 ∉ second := fun h0 => hnul (hrm 0 (hf2 0 h0))
        have hc2 := strcmp_eq_token second "play" hs0
        by_cases h2 : second = bytes_of "play"
        · subst h2
          have hc2' : strcmp_eq (bytes_of "play" ++ [0]) "play" = true := hc2.mpr rfl
          simp only [hc2', if_true]
        · have hc2' : strcmp_eq (second ++ [0]) "play" = false := by
            cases hb : strcmp_eq (second ++ [0]) "play"
            · rfl
            · exact absurd (hc2.mp hb) h2
          simp only [hc2', Bool.false_eq_true, if_false, h2]
    · have hc1' : strcmp_eq (first ++ [0]) INSTRUMENT_NAME = false := by
        cases hb : strcmp_eq (first ++ [0]) INSTRUMENT_NAME
        · rfl
        · exact absurd (hc1.mp hb) h1
      simp only [hc1', Bool.not_false, if_true, ne_eq, h1, not_false_eq_true]

theorem le_strlen_of_prefix (p q : List Nat) (n : Nat) (hp : 0 ∉ p)
    (h : strlen (p ++ q) = some n) : p.length ≤ n := by
  induction p generalizing n with
  | nil => simp
  | cons b bs ih =>
    have hb : b ≠ 0 := fun hb => hp (by simp [hb])
    have hbs : 0 ∉ bs := fun hbs => hp (by simp [hbs])
    rw [List.cons_append] at h
    simp only [strlen, hb, if_false] at h
    cases hs : strlen (bs ++ q) with
    | none => rw [hs] at h; simp at h
    | some m =>
      rw [hs] at h
      simp only [Option.map_some', Option.some.injEq] at h
      have := ih m hbs hs
      simp only [List.length_cons]
      omega

/-- When the first string of the buffer ends at or after the received length, the byte
count handed to `memcpy` is negative: decoding has no defined result. -/
theorem receive_decode_unterminated (buffer : List Nat) (recv : Int)
    (h : ∀ n, strlen buffer = some n → recv ≤ n) :
    ∃ f, receive_decode buffer recv = .error f := by
  unfold receive_decode
  simp only
  split
  · exact ⟨_, rfl⟩
  · rename_i n hn
    have hle := h n hn
    split
    · exact ⟨_, rfl⟩
    · split
      · exact ⟨_, rfl⟩
      · rename_i n2 _
        split
        · exact ⟨_, rfl⟩
        · have hneg : recv - ((n + 1 : Nat) : Int) - ((n2 + 1 : Nat) : Int) < 0 := by
            push_cast; omega
          rw [if_pos hneg]
          exact ⟨_, rfl⟩

/-- The number of bytes `receive` skips after a string that ends at offset `offset`. -/
theorem skip_padding (offset : Nat) :
    (if offset % 4 ≠ 0 then offset + (4 - offset % 4) else offset) =
      offset + (if offset % 4 ≠ 0 then 4 - offset % 4 else 0) := by
  split <;> rfl

theorem store_zeroed (fl : Fault) (size : Nat) (bytes : List Nat) (h : bytes.length ≤ size) :
    store fl (List.replicate size 0) 0 bytes =
      .ok (bytes ++ List.replicate (size - bytes.length) 0) := by
  have := store_middle fl [] (List.replicate bytes.length 0)
    (List.replicate (size - bytes.length) 0) bytes (by simp)
  have hz : List.replicate size (0 : Nat) =
      [] ++ List.replicate bytes.length 0 ++ List.replicate (size - bytes.length) 0 := by
    rw [List.nil_append, ← List.replicate_add]
    congr 1; omega
  rw [hz]
  simpa using this

/-- Decoding a framed buffer: string `a`, its NUL, `P` skipped bytes, string `f`, its NUL,
`Q` skipped bytes, then `rest`. The payload count is `recv` minus the two unpadded
string lengths. -/
theorem receive_decode_framed (a P f Q rest : List Nat) (recv : Int) (c : Nat)
    (ha : 0 ∉ a) (hf : 0 ∉ f)
    (hla : a.length < OSC_SIZE_ADDRESS) (hlf : f.length < OSC_SIZE_FORMAT)
    (hP : P.length = if (a.length + 1) % 4 ≠ 0 then 4 - (a.length + 1) % 4 else 0)
    (hQ : Q.length = if (f.length + 1) % 4 ≠ 0 then 4 - (f.length + 1) % 4 else 0)
    (hc : recv - ((a.length + 1 : Nat) : Int) - ((f.length + 1 : Nat) : Int) = (c : Int))
    (hrest : c ≤ rest.length) (hdata : c ≤ OSC_SIZE_DATA) :
    receive_decode (a ++ 0 :: (P ++ (f ++ 0 :: (Q ++ rest)))) recv =
      .ok { address := a ++ List.replicate (OSC_SIZE_ADDRESS - a.length) 0
            format := f ++ List.replicate (OSC_SIZE_FORMAT - f.length) 0
            data := rest.take c ++ List.replicate (OSC_SIZE_DATA - c) 0
            data_size := c } := by
  have hs1 : strlen (a ++ 0 :: (P ++ (f ++ 0 :: (Q ++ rest)))) = some a.length :=
    strlen_append_nul _ _ ha
  have hm1 : 0 ∈ a ++ 0 :: (P ++ (f ++ 0 :: (Q ++ rest))) := by simp
  have hcs1 : c_str (a ++ 0 :: (P ++ (f ++ 0 :: (Q ++ rest)))) = a := c_str_append_nul _ _ ha
  have hcp1 : strcpy .address_overflow (List.replicate OSC_SIZE_ADDRESS 0) 0
      (a ++ 0 :: (P ++ (f ++ 0 :: (Q ++ rest)))) =
      .ok (a ++ List.replicate (OSC_SIZE_ADDRESS - a.length) 0) := by
    rw [strcpy_of_mem _ _ _ _ hm1, hcs1, store_zeroed _ _ _ (by simp; omega)]
    have : OSC_SIZE_ADDRESS - a.length = 1 + (OSC_SIZE_ADDRESS - (a ++ [0]).length) := by
      simp only [List.length_append, List.length_singleton]; omega
    rw [this, List.replicate_add]
    simp
  have hposn1 : (if (a.length + 1) % 4 ≠ 0 then a.length + 1 + (4 - (a.length + 1) % 4)
      else a.length + 1) = a.length + 1 + P.length := by
    rw [hP]; exact skip_padding _
  have hdrop1 : (a ++ 0 :: (P ++ (f ++ 0 :: (Q ++ rest)))).drop (a.length + 1 + P.length) =
      f ++ 0 :: (Q ++ rest) := by
    have : a ++ 0 :: (P ++ (f ++ 0 :: (Q ++ rest))) = (a ++ [0] ++ P) ++ (f ++ 0 :: (Q ++ rest)) := by
      simp
    rw [this]
    exact List.drop_left' (by simp only [List.length_append, List.length_singleton])
  have hs2 : strlen (f ++ 0 :: (Q ++ rest)) = some f.length := strlen_append_nul _ _ hf
  have hm2 : 0 ∈ f ++ 0 :: (Q ++ rest) := by simp
  have hcs2 : c_str (f ++ 0 :: (Q ++ rest)) = f := c_str_append_nul _ _ hf
  have hcp2 : strcpy .format_overflow (List.replicate OSC_SIZE_FORMAT 0) 0
      (f ++ 0 :: (Q ++ rest)) = .ok (f ++ List.replicate (OSC_SIZE_FORMAT - f.length) 0) := by
    rw [strcpy_of_mem _ _ _ _ hm2, hcs2, store_zeroed _ _ _ (by simp; omega)]
    have : OSC_SIZE_FORMAT - f.length = 1 + (OSC_SIZE_FORMAT - (f ++ [0]).length) := by
      simp only [List.length_append, List.length_singleton]; omega
    rw [this, List.replicate_add]
    simp
  have hal : (a.length + 1 + P.length) % 4 = 0 := by
    rw [hP]; split <;> omega
  have hposn2 : (if (a.length + 1 + P.length + (f.length + 1)) % 4 ≠ 0
      then a.length + 1 + P.length + (f.length + 1) +
        (4 - (a.length + 1 + P.length + (f.length + 1)) % 4)
      else a.length + 1 + P.length + (f.length + 1)) =
      a.length + 1 + P.length + (f.length + 1) + Q.length := by
    rw [skip_padding, hQ]
    congr 1
    have e : (a.length + 1 + P.length + (f.length + 1)) % 4 = (f.length + 1) % 4 := by omega
    rw [e]
  have hload : load (a ++ 0 :: (P ++ (f ++ 0 :: (Q ++ rest))))
      (a.length + 1 + P.length + (f.length + 1) + Q.length) c = .ok (rest.take c) := by
    have hsplit : a ++ 0 :: (P ++ (f ++ 0 :: (Q ++ rest))) =
        (a ++ [0] ++ P ++ (f ++ [0]) ++ Q) ++ rest := by simp
    have hlen : (a ++ [0] ++ P ++ (f ++ [0]) ++ Q).length =
        a.length + 1 + P.length + (f.length + 1) + Q.length := by
      simp only [List.length_append, List.length_singleton]
    simp only [load]
    rw [if_pos (by
      rw [hsplit, List.length_append, hlen]; omega)]
    rw [hsplit, List.drop_left' hlen]
  have hstore : store .data_overflow (List.replicate OSC_SIZE_DATA 0) 0 (rest.take c) =
      .ok (rest.take c ++ List.replicate (OSC_SIZE_DATA - c) 0) := by
    have hl : (rest.take c).length = c := by simp [hrest]
    have := store_zeroed .data_overflow OSC_SIZE_DATA (rest.take c) (by rw [hl]; exact hdata)
    rw [hl] at this
    exact this
  have hneg : ¬ (recv - ((a.length + 1 : Nat) : Int) - ((f.length + 1 : Nat) : Int) < 0) := by
    rw [hc]; omega
  have hneg' : ¬ ((c : Int) < 0) := by omega
  unfold receive_decode
  simp only [hs1, hcp1, hposn1, hdrop1, hs2, hcp2, hposn2, hneg, hneg', if_false, hc,
    Int.toNat_ofNat, hload, hstore]

/-- Decoding what `flatten_oscmessage` produced (followed in the receive buffer by `tail`):
address and format come back, and the payload count is `data_size` plus the padding
bytes of both strings. -/
theorem receive_decode_flatten (msg : OSCMessage) (n pal pfl : Nat) (tail : List Nat)
    (ha : 0 ∈ msg.address) (hf : 0 ∈ msg.format)
    (hla : (c_str msg.address).length < OSC_SIZE_ADDRESS)
    (hlf : (c_str msg.format).length < OSC_SIZE_FORMAT)
    (hpa : OSC_SIZE msg.address = .ok pal) (hpf : OSC_SIZE msg.format = .ok pfl)
    (hn : msg.data_size = (n : Int)) (hle : n ≤ msg.data.length)
    (htail : pal - ((c_str msg.address).length + 1) + (pfl - ((c_str msg.format).length + 1))
      ≤ tail.length)
    (hdata : n + (pal - ((c_str msg.address).length + 1)) +
      (pfl - ((c_str msg.format).length + 1)) ≤ OSC_SIZE_DATA) :
    ∃ stream, flatten_oscmessage msg = .ok (stream, ((pal + pfl + n : Nat) : Int)) ∧
      stream.length = pal + pfl + n ∧
      receive_decode (stream ++ tail) ((pal + pfl + n : Nat) : Int) =
        .ok { address := c_str msg.address ++
                List.replicate (OSC_SIZE_ADDRESS - (c_str msg.address).length) 0
              format := c_str msg.format ++
                List.replicate (OSC_SIZE_FORMAT - (c_str msg.format).length) 0
              data := (msg.data.take n ++ tail).take
                  (n + (pal - ((c_str msg.address).length + 1)) +
                    (pfl - ((c_str msg.format).length + 1))) ++
                List.replicate (OSC_SIZE_DATA -
                  (n + (pal - ((c_str msg.address).length + 1)) +
                    (pfl - ((c_str msg.format).length + 1)))) 0
              data_size := ((n + (pal - ((c_str msg.address).length + 1)) +
                    (pfl - ((c_str msg.format).length + 1)) : Nat) : Int) } := by
  have hlay := flatten_layout msg pal pfl n ha hf hpa hpf hn hle
  have hA := OSC_SIZE_of_mem msg.address ha
  have hF := OSC_SIZE_of_mem msg.format hf
  rw [hpa] at hA; rw [hpf] at hF
  simp only [Except.ok.injEq] at hA hF
  generalize hAs : c_str msg.address = A at *
  generalize hFs : c_str msg.format = F at *
  have hA0 : 0 ∉ A := by rw [← hAs]; exact c_str_no_nul _
  have hF0 : 0 ∉ F := by rw [← hFs]; exact c_str_no_nul _
  have hpal : A.length + 1 ≤ pal := by rw [hA]; split <;> omega
  have hpfl : F.length + 1 ≤ pfl := by rw [hF]; split <;> omega
  have hD : (msg.data.take n).length = n := by simp [hle]
  refine ⟨_, hlay, ?_, ?_⟩
  · simp only [List.length_append, List.length_replicate, hD]; omega
  · have hpadA : List.replicate (pal - A.length) 0 =
        0 :: List.replicate (pal - (A.length + 1)) 0 := by
      have : pal - A.length = (pal - (A.length + 1)) + 1 := by omega
      rw [this, List.replicate_succ]
    have hpadF : List.replicate (pfl - F.length) 0 =
        0 :: List.replicate (pfl - (F.length + 1)) 0 := by
      have : pfl - F.length = (pfl - (F.length + 1)) + 1 := by omega
      rw [this, List.replicate_succ]
    have hshape : A ++ List.replicate (pal - A.length) 0 ++
        (F ++ List.replicate (pfl - F.length) 0) ++ msg.data.take n ++ tail =
        A ++ 0 :: (List.replicate (pal - (A.length + 1)) 0 ++
          (F ++ 0 :: (List.replicate (pfl - (F.length + 1)) 0 ++ (msg.data.take n ++ tail)))) := by
      rw [hpadA, hpadF]; simp
    rw [hshape]
    apply receive_decode_framed A _ F _ _ _ _ hA0 hF0 hla hlf
    · rw [List.length_replicate, hA]; split <;> omega
    · rw [List.length_replicate, hF]; split <;> omega
    · push_cast; omega
    · simp only [List.length_append, hD]; omega
    · exact hdata

theorem store_ok_length (fl : Fault) (obj : List Nat) (off : Nat) (bytes obj' : List Nat)
    (h : store fl obj off bytes = .ok obj') :
    obj'.length = obj.length ∧ off + bytes.length ≤ obj.length := by
  unfold store at h
  split at h
  · rename_i hfit
    simp only [Except.ok.injEq] at h
    refine ⟨?_, hfit⟩
    rw [← h]
    simp only [List.length_append, List.length_take, List.length_drop]
    omega
  · exact Except.noConfusion h

theorem OSC_SIZE_ok (mem : List Nat) (n : Nat) (h : OSC_SIZE mem = .ok n) :
    ∃ l, strlen mem = some l ∧ n % 4 = 0 ∧ l + 1 ≤ n ∧ n < l + 5 := by
  unfold OSC_SIZE at h
  split at h
  · exact Except.noConfusion h
  · rename_i l hl
    simp only [Except.ok.injEq] at h
    refine ⟨l, hl, ?_⟩
    rw [← h]
    split <;> omega

/-- The loop of `build_osc_message` keeps the write position inside `data` and on a
multiple of 4. -/
theorem build_arguments_invariant (host : Endian) (format : List Nat) :
    ∀ (args : List VaArg) (data : List Nat) (i : Nat) (data' : List Nat) (i' : Nat),
      build_arguments host format args data i = .ok (data', i') → i ≤ data.length →
      data'.length = data.length ∧ i' ≤ data.length ∧ (i % 4 = 0 → i' % 4 = 0) := by
  induction format with
  | nil => intro args data i data' i' h; simp [build_arguments] at h
  | cons c format ih =>
    intro args data i data' i' h hi
    unfold build_arguments at h
    split at h
    · simp only [Except.ok.injEq, Prod.mk.injEq] at h
      obtain ⟨h1, h2⟩ := h
      subst h1; subst h2
      exact ⟨rfl, hi, fun h => h⟩
    · split at h
      · -- case 'i'
        split at h
        · simp only at h
          split at h
          · exact Except.noConfusion h
          · rename_i d1 hst
            obtain ⟨hl, hfit⟩ := store_ok_length _ _ _ _ _ hst
            have hb : ∀ x, (bytes_of_u32 host x).length = 4 := by
              intro x; cases host <;> rfl
            rw [hb] at hfit
            obtain ⟨a, b, c⟩ := ih _ d1 (i + 4) data' i' h (by omega)
            exact ⟨by omega, by omega, fun h4 => c (by omega)⟩
        · exact Except.noConfusion h
      · split at h
        · -- case 'f'
          split at h
          · split at h
            · exact Except.noConfusion h
            · rename_i d1 hst
              obtain ⟨hl, hfit⟩ := store_ok_length _ _ _ _ _ hst
              have hb : ∀ x, (bytes_of_u32 host x).length = 4 := by
                intro x; cases host <;> rfl
              rw [hb] at hfit
              obtain ⟨a, b, c⟩ := ih _ d1 (i + 4) data' i' h (by omega)
              exact ⟨by omega, by omega, fun h4 => c (by omega)⟩
          · exact Except.noConfusion h
        · split at h
          · -- case 's'
            split at h
            · split at h
              · rename_i l n hl hn
                simp only at h
                split at h
                · exact Except.noConfusion h
                · rename_i d1 hst1
                  split at h
                  · exact Except.noConfusion h
                  · rename_i d2 hst2
                    obtain ⟨hl1, hfit1⟩ := store_ok_length _ _ _ _ _ hst1
                    obtain ⟨hl2, hfit2⟩ := store_ok_length _ _ _ _ _ hst2
                    obtain ⟨l', hl', hn4, hln, -⟩ := OSC_SIZE_ok _ _ hn
                    rw [hl] at hl'
                    cases hl'
                    simp only [List.length_replicate] at hfit2
                    obtain ⟨a, b, c⟩ := ih _ d2 (i + n) data' i' h (by omega)
                    exact ⟨by omega, by omega, fun h4 => c (by omega)⟩
              · exact Except.noConfusion h
            · exact Except.noConfusion h
          · exact ih _ data i data' i' h hi

theorem strcpy_ok_mem (fl : Fault) (dst : List Nat) (off : Nat) (src dst' : List Nat)
    (h : strcpy fl dst off src = .ok dst') : 0 ∈ dst' := by
  unfold strcpy at h
  split at h
  · exact Except.noConfusion h
  · rename_i n hn
    have hm := (take_strlen src n hn).1
    have hn' := strlen_of_mem src hm
    rw [hn] at hn'
    cases hn'
    rw [take_c_str_succ src hm] at h
    unfold store at h
    split at h
    · simp only [Except.ok.injEq] at h
      rw [← h]
      simp
    · exact Except.noConfusion h

theorem malloc_OSCMessage_data_length (junk : Nat → Nat) :
    (malloc_OSCMessage junk).data.length = OSC_SIZE_DATA := by
  simp [malloc_OSCMessage, malloc, OSC_SIZE_ADDRESS, OSC_SIZE_FORMAT, OSC_SIZE_DATA]

/-- What a successful `build_osc_message` guarantees about its result. -/
theorem build_osc_message_ok (host : Endian) (junk : Nat → Nat) (address format : List Nat)
    (args : List VaArg) (msg : OSCMessage)
    (h : build_osc_message host junk address format args = .ok msg) :
    0 ∈ msg.address ∧ 0 ∈ msg.format ∧ msg.data.length = OSC_SIZE_DATA ∧
    ∃ i, build_arguments host (format.drop 1) args (malloc_OSCMessage junk).data 0 =
        .ok (msg.data, i) ∧ msg.data_size = (i : Int) ∧ i ≤ OSC_SIZE_DATA ∧ i % 4 = 0 := by
  unfold build_osc_message at h
  simp only at h
  split at h
  · exact Except.noConfusion h
  · rename_i a' ha
    split at h
    · exact Except.noConfusion h
    · rename_i f' hf
      split at h
      · exact Except.noConfusion h
      · rename_i data i hb
        simp only [Except.ok.injEq] at h
        obtain ⟨hl, hi, h4⟩ := build_arguments_invariant host _ _ _ _ _ _ hb (Nat.zero_le _)
        rw [malloc_OSCMessage_data_length] at hl hi
        rw [← h]
        exact ⟨strcpy_ok_mem _ _ _ _ _ ha, strcpy_ok_mem _ _ _ _ _ hf, hl, i, hb, rfl, hi,
          h4 rfl⟩

theorem store_at (fl : Fault) (d : List Nat) (i : Nat) (b : List Nat)
    (h : i + b.length ≤ d.length) :
    store fl d i b = .ok (d.take i ++ b ++ d.drop (i + b.length)) := by
  simp only [store, h, if_true]

theorem stored_take (d : List Nat) (i : Nat) (b : List Nat) (h : i + b.length ≤ d.length) :
    (d.take i ++ b ++ d.drop (i + b.length)).take (i + b.length) = d.take i ++ b := by
  apply List.take_left'
  simp only [List.length_append, List.length_take]
  omega

theorem stored_drop (d : List Nat) (i : Nat) (b : List Nat) (k : Nat)
    (h : i + b.length ≤ d.length) :
    (d.take i ++ b ++ d.drop (i + b.length)).drop (i + b.length + k) =
      d.drop (i + b.length + k) := by
  have hl : (d.take i ++ b).length = i + b.length := by
    simp only [List.length_append, List.length_take]; omega
  rw [← hl, List.drop_append, hl, List.drop_drop]

theorem stored_length (d : List Nat) (i : Nat) (b : List Nat) (h : i + b.length ≤ d.length) :
    (d.take i ++ b ++ d.drop (i + b.length)).length = d.length := by
  simp only [List.length_append, List.length_take, List.length_drop]
  omega

/-- Two adjacent stores are one store of the concatenation. -/
theorem store_store (fl : Fault) (d : List Nat) (i : Nat) (x y : List Nat)
    (h : i + x.length + y.length ≤ d.length) :
    (match store fl d i x with
      | .error f => (Except.error f : Except Fault (List Nat))
      | .ok d1 => store fl d1 (i + x.length) y) =
      .ok (d.take i ++ (x ++ y) ++ d.drop (i + (x ++ y).length)) := by
  rw [store_at fl d i x (by omega)]
  simp only
  rw [store_at fl _ (i + x.length) y (by rw [stored_length d i x (by omega)]; omega)]
  rw [stored_take d i x (by omega), stored_drop d i x y.length (by omega)]
  simp only [List.length_append, List.append_assoc, Nat.add_assoc]

theorem stored_bytes_length (host : Endian) (a : VaArg) (c : Nat) (h : tag_matches c a) :
    (stored_bytes host a).length = encoded_size a := by
  cases a with
  | int v => cases host <;> rfl
  | double b => cases host <;> rfl
  | pointer mem =>
    obtain ⟨-, hm⟩ := h
    obtain ⟨n, hn, -, hge, -⟩ := OSC_SIZE_bounds mem hm
    simp only [stored_bytes, encoded_size, hn, take_c_str_succ mem hm, List.length_append,
      List.length_replicate, List.length_singleton]
    omega

theorem tag_matches_ne_zero (c : Nat) (a : VaArg) (h : tag_matches c a) :
    c = 105 ∨ c = 102 ∨ c = 115 := by
  cases a with
  | int v => exact Or.inl h
  | double b => exact Or.inr (Or.inl h)
  | pointer mem => exact Or.inr (Or.inr h.1)

/-- The loop of `build_osc_message` on a type tag whose characters match the arguments:
the encodings of the arguments are stored one after the other from `data + i` on,
and `i` advances by the sum of their encoded sizes. -/
theorem build_arguments_matching (host : Endian) (tail : List Nat) :
    ∀ (tag : List Nat) (args : List VaArg) (data : List Nat) (i : Nat),
      List.Forall₂ tag_matches tag args →
      i + (args.map encoded_size).sum ≤ data.length →
      build_arguments host (tag ++ 0 :: tail) args data i =
        .ok (data.take i ++ args.flatMap (stored_bytes host) ++
          data.drop (i + (args.map encoded_size).sum), i + (args.map encoded_size).sum) := by
  intro tag
  induction tag with
  | nil =>
    intro args data i hm hfit
    cases hm
    simp [build_arguments]
  | cons c tag ih =>
    intro args data i hm hfit
    cases hm with
    | cons hca hrest =>
      rename_i a args'
      simp only [List.map_cons, List.sum_cons] at hfit ⊢
      have hlen := stored_bytes_length host a c hca
      have hstep : ∀ d1 : List Nat,
          d1 = data.take i ++ stored_bytes host a ++ data.drop (i + (stored_bytes host a).length) →
          build_arguments host (tag ++ 0 :: tail) args' d1 (i + encoded_size a) =
          .ok (data.take i ++ (a :: args').flatMap (stored_bytes host) ++
            data.drop (i + (encoded_size a + (args'.map encoded_size).sum)),
            i + (encoded_size a + (args'.map encoded_size).sum)) := by
        intro d1 hd1
        have hl1 : d1.length = data.length := by
          rw [hd1]; exact stored_length data i _ (by omega)
        rw [ih args' d1 (i + encoded_size a) hrest (by omega)]
        rw [← hlen, hd1, stored_take data i _ (by omega),
          stored_drop data i _ _ (by omega)]
        simp only [List.flatMap_cons, List.append_assoc, Nat.add_assoc]
      cases a with
      | int v =>
        have hc : c = 105 := hca
        subst hc
        have e4 : encoded_size (.int v) = 4 := rfl
        rw [List.cons_append]
        unfold build_arguments
        simp only [show ¬ (105 : Nat) = 0 by decide, if_false, if_true]
        have hst := store_at .data_overflow data i (stored_bytes host (.int v))
          (by rw [hlen]; omega)
        simp only [stored_bytes] at hst
        rw [hst]
        simp only
        have := hstep _ rfl
        simp only [stored_bytes, e4] at this ⊢
        exact this
      | double b =>
        have hc : c = 102 := hca
        subst hc
        have e4 : encoded_size (.double b) = 4 := rfl
        rw [List.cons_append]
        unfold build_arguments
        simp only [show ¬ (102 : Nat) = 0 by decide, show ¬ (102 : Nat) = 105 by decide,
          if_false, if_true]
        have hst := store_at .data_overflow data i (stored_bytes host (.double b))
          (by rw [hlen]; omega)
        simp only [stored_bytes] at hst
        rw [hst]
        simp only
        have := hstep _ rfl
        simp only [stored_bytes, e4] at this ⊢
        exact this
      | pointer mem =>
        obtain ⟨hc, hmem⟩ := hca
        subst hc
        obtain ⟨n, hn, -, hge, -⟩ := OSC_SIZE_bounds mem hmem
        have hsl := strlen_of_mem mem hmem
        have en : encoded_size (.pointer mem) = n := by simp only [encoded_size, hn]
        have hsb : stored_bytes host (.pointer mem) =
            mem.take ((c_str mem).length + 1) ++
              List.replicate (n - ((c_str mem).length + 1)) 0 := by
          simp only [stored_bytes, hn]
        have hxl : (mem.take ((c_str mem).length + 1)).length = (c_str mem).length + 1 := by
          rw [take_c_str_succ mem hmem]; simp
        rw [List.cons_append]
        unfold build_arguments
        simp only [show ¬ (115 : Nat) = 0 by decide, show ¬ (115 : Nat) = 105 by decide,
          show ¬ (115 : Nat) = 102 by decide, if_false, if_true, hsl, hn]
        have hss := store_store .data_overflow data i (mem.take ((c_str mem).length + 1))
          (List.replicate (n - ((c_str mem).length + 1)) 0)
          (by rw [hxl, List.length_replicate]; rw [en] at hfit; omega)
        rw [hxl] at hss
        have hstep' := hstep _ rfl
        rw [hsb, en] at hstep'
        cases h1 : store .data_overflow data i (mem.take ((c_str mem).length + 1)) with
        | error f => rw [h1] at hss; exact Except.noConfusion hss
        | ok d1 =>
          rw [h1] at hss
          simp only at hss ⊢
          rw [hss]
          simp only
          rw [en]
          exact hstep'

theorem malloc_OSCMessage_address_length (junk : Nat → Nat) :
    (malloc_OSCMessage junk).address.length = OSC_SIZE_ADDRESS := by
  simp [malloc_OSCMessage, malloc, OSC_SIZE_ADDRESS, OSC_SIZE_FORMAT, OSC_SIZE_DATA]

theorem malloc_OSCMessage_format_length (junk : Nat → Nat) :
    (malloc_OSCMessage junk).format.length = OSC_SIZE_FORMAT := by
  simp [malloc_OSCMessage, malloc, OSC_SIZE_ADDRESS, OSC_SIZE_FORMAT, OSC_SIZE_DATA]

/-- A `strcpy` to the start of an array that is large enough. -/
theorem strcpy_fits (fl : Fault) (dst src : List Nat) (h : 0 ∈ src)
    (hfit : (c_str src).length + 1 ≤ dst.length) :
    ∃ rest, strcpy fl dst 0 src = .ok (c_str src ++ 0 :: rest) ∧
      (c_str src ++ 0 :: rest).length = dst.length := by
  rw [strcpy_of_mem fl dst 0 src h, store_at fl dst 0 _ (by simp; omega)]
  refine ⟨dst.drop ((c_str src).length + 1), by simp, ?_⟩
  simp only [List.length_append, List.length_cons, List.length_drop]
  omega

theorem tag_no_nul (tag : List Nat) (args : List VaArg) (h : List.Forall₂ tag_matches tag args) :
    0 ∉ tag := by
  induction h with
  | nil => simp
  | cons hca _ ih =>
    intro hmem
    rcases List.mem_cons.mp hmem with h0 | h0
    · rcases tag_matches_ne_zero _ _ hca with hc | hc | hc <;> omega
    · exact ih h0

theorem stored_bytes_total (host : Endian) (tag : List Nat) (args : List VaArg)
    (h : List.Forall₂ tag_matches tag args) :
    (args.flatMap (stored_bytes host)).length = (args.map encoded_size).sum := by
  induction h with
  | nil => rfl
  | cons hca _ ih =>
    simp only [List.flatMap_cons, List.length_append, List.map_cons, List.sum_cons, ih,
      stored_bytes_length host _ _ hca]

/-- What `build_osc_message` returns for a type tag that matches its arguments. -/
theorem build_osc_message_matching (host : Endian) (junk : Nat → Nat) (address tag : List Nat)
    (args : List VaArg)
    (ha : 0 ∈ address) (hla : (c_str address).length < OSC_SIZE_ADDRESS)
    (htag : tag.length + 2 ≤ OSC_SIZE_FORMAT)
    (hm : List.Forall₂ tag_matches tag args)
    (hfit : (args.map encoded_size).sum ≤ OSC_SIZE_DATA) :
    ∃ msg, build_osc_message host junk address (44 :: tag ++ [0]) args = .ok msg ∧
      msg.data_size = (((args.map encoded_size).sum : Nat) : Int) ∧
      0 ∈ msg.address ∧ c_str msg.address = c_str address ∧
      0 ∈ msg.format ∧ c_str msg.format = 44 :: tag ∧
      msg.data.length = OSC_SIZE_DATA ∧
      msg.data.take (args.map encoded_size).sum = args.flatMap (stored_bytes host) := by
  have ht0 := tag_no_nul tag args hm
  have hf0 : 0 ∉ 44 :: tag := by
    intro h
    rcases List.mem_cons.mp h with h | h
    · omega
    · exact ht0 h
  have hfmt : (44 :: tag ++ [0] : List Nat) = (44 :: tag) ++ 0 :: [] := by simp
  have hfm : 0 ∈ (44 :: tag ++ [0] : List Nat) := by simp
  have hfc : c_str (44 :: tag ++ [0] : List Nat) = 44 :: tag := by
    rw [hfmt]; exact c_str_append_nul _ _ hf0
  obtain ⟨ra, hsa, -⟩ := strcpy_fits .address_overflow (malloc_OSCMessage junk).address address ha
    (by rw [malloc_OSCMessage_address_length]; omega)
  obtain ⟨rf, hsf, -⟩ := strcpy_fits .format_overflow (malloc_OSCMessage junk).format
    (44 :: tag ++ [0]) hfm
    (by rw [malloc_OSCMessage_format_length, hfc]; simp only [List.length_cons]; omega)
  have hdrop : (44 :: tag ++ [0] : List Nat).drop 1 = tag ++ 0 :: [] := by simp
  have hb := build_arguments_matching host [] tag args (malloc_OSCMessage junk).data 0 hm
    (by rw [malloc_OSCMessage_data_length]; omega)
  unfold build_osc_message
  simp only [hsa, hsf, hdrop, hb]
  refine ⟨_, rfl, by simp, by simp, c_str_append_nul _ _ (c_str_no_nul address),
    by simp, ?_, ?_, ?_⟩
  · rw [hfc]; exact c_str_append_nul _ _ hf0
  · simp only [List.take_zero, List.nil_append, Nat.zero_add]
    have hl := stored_bytes_total host tag args hm
    simp only [List.length_append, List.length_drop, hl, malloc_OSCMessage_data_length]
    omega
  · simp only [List.take_zero, List.nil_append, Nat.zero_add]
    exact List.take_left' (stored_bytes_total host tag args hm)

/-- The registration message and its flattening, for an IP string without NUL byte that is
shorter than 100 bytes. -/
theorem registration_message (host : Endian) (junk : Nat → Nat) (ip : String)
    (h0 : 0 ∉ bytes_of ip) (hlen : (bytes_of ip).length < 100) :
    ∃ n msg, OSC_SIZE (literal ip) = .ok n ∧
      n % 4 = 0 ∧ (bytes_of ip).length + 1 ≤ n ∧ n < (bytes_of ip).length + 5 ∧
      build_osc_message host junk (literal "/NoticeMe") (literal ",ss")
        [.pointer (literal INSTRUMENT_NAME), .pointer (literal ip)] = .ok msg ∧
      flatten_oscmessage msg = .ok
        (bytes_of "/NoticeMe" ++ List.replicate 3 0 ++ (bytes_of ",ss" ++ List.replicate 1 0) ++
          (bytes_of INSTRUMENT_NAME ++ List.replicate 3 0 ++
            (bytes_of ip ++ List.replicate (n - (bytes_of ip).length) 0)),
          ((32 + n : Nat) : Int)) := by
  have hlit : literal ip = bytes_of ip ++ 0 :: [] := rfl
  have hm : 0 ∈ literal ip := by rw [hlit]; simp
  have hc : c_str (literal ip) = bytes_of ip := by rw [hlit]; exact c_str_append_nul _ _ h0
  obtain ⟨n, hn, hn4, hge, hlt⟩ := OSC_SIZE_bounds (literal ip) hm
  rw [hc] at hge hlt
  have hfmt : literal ",ss" = 44 :: [115, 115] ++ [0] := by decide
  have e1 : encoded_size (.pointer (literal INSTRUMENT_NAME)) = 16 := by decide
  have e2 : encoded_size (.pointer (literal ip)) = n := by simp only [encoded_size, hn]
  have hsum : ([VaArg.pointer (literal INSTRUMENT_NAME), .pointer (literal ip)].map
      encoded_size).sum = 16 + n := by
    simp only [List.map_cons, List.map_nil, List.sum_cons, List.sum_nil, e1, e2, Nat.add_zero]
  obtain ⟨msg, hb, hds, ha, hca, hf, hcf, hdl, hdt⟩ :=
    build_osc_message_matching host junk (literal "/NoticeMe") [115, 115]
      [.pointer (literal INSTRUMENT_NAME), .pointer (literal ip)]
      (by decide) (by decide) (by decide)
      (.cons ⟨rfl, by decide⟩ (.cons ⟨rfl, hm⟩ .nil))
      (by rw [hsum]; simp only [OSC_SIZE_DATA]; omega)
  rw [← hfmt] at hb
  rw [hsum] at hds hdt
  have hca' : c_str msg.address = bytes_of "/NoticeMe" := by rw [hca]; decide
  have hcf' : c_str msg.format = bytes_of ",ss" := by rw [hcf]; decide
  have hpa : OSC_SIZE msg.address = .ok 12 := by
    rw [OSC_SIZE_of_mem msg.address ha, hca']; rfl
  have hpf : OSC_SIZE msg.format = .ok 4 := by
    rw [OSC_SIZE_of_mem msg.format hf, hcf']; rfl
  have hlay := flatten_layout msg 12 4 (16 + n) ha hf hpa hpf hds
    (by rw [hdl]; simp only [OSC_SIZE_DATA]; omega)
  refine ⟨n, msg, hn, hn4, hge, hlt, hb, ?_⟩
  rw [hlay, hdt, hca', hcf']
  have hs1 : stored_bytes host (.pointer (literal INSTRUMENT_NAME)) =
      bytes_of INSTRUMENT_NAME ++ List.replicate 3 0 := rfl
  have hs2 : stored_bytes host (.pointer (literal ip)) =
      bytes_of ip ++ List.replicate (n - (bytes_of ip).length) 0 := by
    have ht := take_c_str_succ (literal ip) hm
    rw [hc] at ht
    simp only [stored_bytes, hn, hc, ht]
    have : n - (bytes_of ip).length = 1 + (n - ((bytes_of ip).length + 1)) := by omega
    rw [this, List.replicate_add]
    simp
  have hl1 : (bytes_of "/NoticeMe").length = 9 := by decide
  have hl2 : (bytes_of ",ss").length = 3 := by decide
  simp only [List.flatMap_cons, List.flatMap_nil, List.append_nil, hs1, hs2, hl1, hl2]
  have : (12 + 4 + (16 + n) : Nat) = 32 + n := by omega
  rw [this]

/-- The receive buffer after `recvfrom` stored the datagram `d`: the datagram, then what
`malloc` had left there. -/
theorem receive_datagram (self : OSCClient) (junk : Nat → Nat) (sender : SocketAddress)
    (d : List Nat) (msg : OSCMessage) (h1 : d ≠ []) (h2 : d.length ≤ OSC_MSG_SIZE) :
    self.receive junk (.datagram sender d) msg =
      match receive_decode (d ++ (malloc junk OSC_MSG_SIZE).drop d.length) (d.length : Nat) with
      | .error f => .error f
      | .ok m => .ok { ret := (d.length : Nat), msg := m,
                       self := { self with controller := sender } } := by
  have ht : d.take OSC_MSG_SIZE = d := List.take_of_length_le h2
  have hpos : ¬ ((d.length : Nat) : Int) ≤ 0 := by
    cases d with
    | nil => exact absurd rfl h1
    | cons b bs => simp only [List.length_cons]; omega
  simp only [OSCClient.receive, recvfrom, ht, hpos, if_false]

theorem malloc_length (junk : Nat → Nat) (size : Nat) : (malloc junk size).length = size := by
  simp [malloc]

theorem strcpy_ok_length (fl : Fault) (dst : List Nat) (off : Nat) (src dst' : List Nat)
    (h : strcpy fl dst off src = .ok dst') : dst'.length = dst.length := by
  unfold strcpy at h
  split at h
  · exact Except.noConfusion h
  · exact (store_ok_length _ _ _ _ _ h).1

theorem c_str_length_lt (a : List Nat) (h : 0 ∈ a) : (c_str a).length < a.length := by
  have hs := split_at_nul a h
  have : a.length = (c_str a ++ 0 :: a.drop ((c_str a).length + 1)).length := by rw [← hs]
  simp only [List.length_append, List.length_cons] at this
  omega

theorem load_ok_length (obj : List Nat) (off n : Nat) (bytes : List Nat)
    (h : load obj off n = .ok bytes) : bytes.length = n := by
  unfold load at h
  split at h
  · simp only [Except.ok.injEq] at h
    rw [← h]
    simp only [List.length_take, List.length_drop]
    omega
  · exact Except.noConfusion h

/-- Every message that the decoding of `receive` completes stays inside its arrays. -/
theorem receive_decode_ok_bounds (buffer : List Nat) (recv : Int) (m : OSCMessage)
    (h : receive_decode buffer recv = .ok m) :
    m.address.length = OSC_SIZE_ADDRESS ∧ 0 ∈ m.address ∧
    m.format.length = OSC_SIZE_FORMAT ∧ 0 ∈ m.format ∧
    m.data.length = OSC_SIZE_DATA ∧ 0 ≤ m.data_size ∧ m.data_size ≤ OSC_SIZE_DATA := by
  unfold receive_decode at h
  simp only at h
  split at h
  · exact Except.noConfusion h
  · split at h
    · exact Except.noConfusion h
    · rename_i address haddr
      split at h
      · exact Except.noConfusion h
      · split at h
        · exact Except.noConfusion h
        · rename_i format hfmt
          split at h
          · exact Except.noConfusion h
          · rename_i hcount
            split at h
            · exact Except.noConfusion h
            · rename_i bytes hload
              split at h
              · exact Except.noConfusion h
              · rename_i data hstore
                simp only [Except.ok.injEq] at h
                have hbl := load_ok_length _ _ _ _ hload
                obtain ⟨hdl, hfit⟩ := store_ok_length _ _ _ _ _ hstore
                simp only [List.length_replicate, Nat.zero_add] at hdl hfit
                have hal := strcpy_ok_length _ _ _ _ _ haddr
                have hfl := strcpy_ok_length _ _ _ _ _ hfmt
                simp only [List.length_replicate] at hal hfl
                rw [← h]
                rw [hbl] at hfit
                refine ⟨hal, strcpy_ok_mem _ _ _ _ _ haddr, hfl, strcpy_ok_mem _ _ _ _ _ hfmt,
                  hdl, ?_, ?_⟩
                · simp only; omega
                · simp only; omega

/-- A well-framed datagram whose strings fit and that has at most 128 bytes after the two
terminators is decoded by `receive`. -/
theorem receive_framed (self : OSCClient) (junk : Nat → Nat) (sender : SocketAddress)
    (msg : OSCMessage) (a P f Q payload : List Nat)
    (ha : 0 ∉ a) (hf : 0 ∉ f)
    (hla : a.length < OSC_SIZE_ADDRESS) (hlf : f.length < OSC_SIZE_FORMAT)
    (hP : P.length = if (a.length + 1) % 4 ≠ 0 then 4 - (a.length + 1) % 4 else 0)
    (hQ : Q.length = if (f.length + 1) % 4 ≠ 0 then 4 - (f.length + 1) % 4 else 0)
    (hdata : payload.length + P.length + Q.length ≤ OSC_SIZE_DATA) :
    self.receive junk (.datagram sender (a ++ 0 :: (P ++ (f ++ 0 :: (Q ++ payload))))) msg =
      .ok { ret := ((a ++ 0 :: (P ++ (f ++ 0 :: (Q ++ payload)))).length : Nat)
            msg :=
              { address := a ++ List.replicate (OSC_SIZE_ADDRESS - a.length) 0
                format := f ++ List.replicate (OSC_SIZE_FORMAT - f.length) 0
                data := (payload ++ (malloc junk OSC_MSG_SIZE).drop
                    (a ++ 0 :: (P ++ (f ++ 0 :: (Q ++ payload)))).length).take
                    (payload.length + P.length + Q.length) ++
                  List.replicate (OSC_SIZE_DATA - (payload.length + P.length + Q.length)) 0
                data_size := ((payload.length + P.length + Q.length : Nat) : Int) }
            self := { self with controller := sender } } := by
  have hP3 : P.length ≤ 3 := by rw [hP]; split <;> omega
  have hQ3 : Q.length ≤ 3 := by rw [hQ]; split <;> omega
  have hdl : (a ++ 0 :: (P ++ (f ++ 0 :: (Q ++ payload)))).length =
      a.length + 1 + P.length + (f.length + 1) + Q.length + payload.length := by
    simp only [List.length_append, List.length_cons]; omega
  simp only [OSC_SIZE_ADDRESS, OSC_SIZE_FORMAT, OSC_SIZE_DATA] at hla hlf hdata
  rw [receive_datagram self junk sender _ msg (by simp) (by rw [hdl]; simp only [OSC_MSG_SIZE]; omega)]
  have hbuf : a ++ 0 :: (P ++ (f ++ 0 :: (Q ++ payload))) ++
      (malloc junk OSC_MSG_SIZE).drop (a ++ 0 :: (P ++ (f ++ 0 :: (Q ++ payload)))).length =
      a ++ 0 :: (P ++ (f ++ 0 :: (Q ++ (payload ++
        (malloc junk OSC_MSG_SIZE).drop (a ++ 0 :: (P ++ (f ++ 0 :: (Q ++ payload)))).length)))) := by
    simp only [List.append_assoc, List.cons_append]
  rw [hbuf]
  rw [receive_decode_framed a P f Q _ _ (payload.length + P.length + Q.length) ha hf
    (by simp only [OSC_SIZE_ADDRESS]; omega) (by simp only [OSC_SIZE_FORMAT]; omega) hP hQ
    (by rw [hdl]; push_cast; omega)
    (by
      rw [List.length_append, List.length_drop, malloc_length, hdl]
      simp only [OSC_MSG_SIZE]; omega)
    (by simp only [OSC_SIZE_DATA]; omega)]

/-- The string part of the decoding on a framed buffer: string `a`, its NUL, `P` skipped
bytes, string `f`, its NUL, `Q` skipped bytes, then `rest`. -/
theorem receive_strings_framed (a P f Q rest : List Nat)
    (ha : 0 ∉ a) (hf : 0 ∉ f)
    (hla : a.length < OSC_SIZE_ADDRESS) (hlf : f.length < OSC_SIZE_FORMAT)
    (hP : P.length = if (a.length + 1) % 4 ≠ 0 then 4 - (a.length + 1) % 4 else 0)
    (hQ : Q.length = if (f.length + 1) % 4 ≠ 0 then 4 - (f.length + 1) % 4 else 0) :
    receive_strings (a ++ 0 :: (P ++ (f ++ 0 :: (Q ++ rest)))) =
      .ok { address := a ++ List.replicate (OSC_SIZE_ADDRESS - a.length) 0
            format := f ++ List.replicate (OSC_SIZE_FORMAT - f.length) 0
            address_length := a.length + 1
            format_length := f.length + 1
            format_offset := a.length + 1 + P.length
            data_offset := a.length + 1 + P.length + (f.length + 1) + Q.length } := by
  have hs1 : strlen (a ++ 0 :: (P ++ (f ++ 0 :: (Q ++ rest)))) = some a.length :=
    strlen_append_nul _ _ ha
  have hm1 : 0 ∈ a ++ 0 :: (P ++ (f ++ 0 :: (Q ++ rest))) := by simp
  have hcs1 : c_str (a ++ 0 :: (P ++ (f ++ 0 :: (Q ++ rest)))) = a := c_str_append_nul _ _ ha
  have hcp1 : strcpy .address_overflow (List.replicate OSC_SIZE_ADDRESS 0) 0
      (a ++ 0 :: (P ++ (f ++ 0 :: (Q ++ rest)))) =
      .ok (a ++ List.replicate (OSC_SIZE_ADDRESS - a.length) 0) := by
    rw [strcpy_of_mem _ _ _ _ hm1, hcs1, store_zeroed _ _ _ (by simp; omega)]
    have : OSC_SIZE_ADDRESS - a.length = 1 + (OSC_SIZE_ADDRESS - (a ++ [0]).length) := by
      simp only [List.length_append, List.length_singleton]; omega
    rw [this, List.replicate_add]
    simp
  have hposn1 : (if (a.length + 1) % 4 ≠ 0 then a.length + 1 + (4 - (a.length + 1) % 4)
      else a.length + 1) = a.length + 1 + P.length := by
    rw [hP]; exact skip_padding _
  have hdrop1 : (a ++ 0 :: (P ++ (f ++ 0 :: (Q ++ rest)))).drop (a.length + 1 + P.length) =
      f ++ 0 :: (Q ++ rest) := by
    have : a ++ 0 :: (P ++ (f ++ 0 :: (Q ++ rest))) = (a ++ [0] ++ P) ++ (f ++ 0 :: (Q ++ rest)) := by
      simp
    rw [this]
    exact List.drop_left' (by simp only [List.length_append, List.length_singleton])
  have hs2 : strlen (f ++ 0 :: (Q ++ rest)) = some f.length := strlen_append_nul _ _ hf
  have hm2 : 0 ∈ f ++ 0 :: (Q ++ rest) := by simp
  have hcs2 : c_str (f ++ 0 :: (Q ++ rest)) = f := c_str_append_nul _ _ hf
  have hcp2 : strcpy .format_overflow (List.replicate OSC_SIZE_FORMAT 0) 0
      (f ++ 0 :: (Q ++ rest)) = .ok (f ++ List.replicate (OSC_SIZE_FORMAT - f.length) 0) := by
    rw [strcpy_of_mem _ _ _ _ hm2, hcs2, store_zeroed _ _ _ (by simp; omega)]
    have : OSC_SIZE_FORMAT - f.length = 1 + (OSC_SIZE_FORMAT - (f ++ [0]).length) := by
      simp only [List.length_append, List.length_singleton]; omega
    rw [this, List.replicate_add]
    simp
  have hal : (a.length + 1 + P.length) % 4 = 0 := by
    rw [hP]; split <;> omega
  have hposn2 : (if (a.length + 1 + P.length + (f.length + 1)) % 4 ≠ 0
      then a.length + 1 + P.length + (f.length + 1) +
        (4 - (a.length + 1 + P.length + (f.length + 1)) % 4)
      else a.length + 1 + P.length + (f.length + 1)) =
      a.length + 1 + P.length + (f.length + 1) + Q.length := by
    rw [skip_padding, hQ]
    congr 1
    have e : (a.length + 1 + P.length + (f.length + 1)) % 4 = (f.length + 1) % 4 := by omega
    rw [e]
  unfold receive_strings
  simp only [hs1, hcp1, hposn1, hdrop1, hs2, hcp2, hposn2]

/-- What a completed decoding put into `address` and `format` is what lines 240-262 computed. -/
theorem receive_decode_strings (buffer : List Nat) (recv : Int) (m : OSCMessage)
    (h : receive_decode buffer recv = .ok m) :
    ∃ s, receive_strings buffer = .ok s ∧ m.address = s.address ∧ m.format = s.format ∧
      m.data_size = recv - (s.address_length : Nat) - (s.format_length : Nat) := by
  unfold receive_decode at h
  simp only at h
  unfold receive_strings
  simp only
  split at h
  · exact Except.noConfusion h
  · rename_i n1 hn1
    split at h
    · exact Except.noConfusion h
    · rename_i address haddr
      split at h
      · exact Except.noConfusion h
      · rename_i n2 hn2
        split at h
        · exact Except.noConfusion h
        · rename_i format hfmt
          split at h
          · exact Except.noConfusion h
          · split at h
            · exact Except.noConfusion h
            · split at h
              · exact Except.noConfusion h
              · simp only [Except.ok.injEq] at h
                refine ⟨_, rfl, ?_, ?_, ?_⟩ <;> rw [← h]

theorem c_str_padded (a : List Nat) (k : Nat) (ha : 0 ∉ a) (hk : 0 < k) :
    c_str (a ++ List.replicate k 0) = a := by
  obtain ⟨j, rfl⟩ : ∃ j, k = j + 1 := ⟨k - 1, by omega⟩
  rw [List.replicate_succ]
  exact c_str_append_nul a _ ha

/-- The flattened message, cut at the places the decoder looks at. -/
theorem flatten_framed (m : OSCMessage) (n pal pfl : Nat)
    (ha : 0 ∈ m.address) (hf : 0 ∈ m.format)
    (hpa : OSC_SIZE m.address = .ok pal) (hpf : OSC_SIZE m.format = .ok pfl)
    (hn : m.data_size = (n : Int)) (hle : n ≤ m.data.length) :
    flatten_oscmessage m = .ok
      (c_str m.address ++ 0 :: (List.replicate (pal - ((c_str m.address).length + 1)) 0 ++
        (c_str m.format ++ 0 :: (List.replicate (pfl - ((c_str m.format).length + 1)) 0 ++
          m.data.take n))), ((pal + pfl + n : Nat) : Int)) ∧
    (List.replicate (pal - ((c_str m.address).length + 1)) 0).length =
      (if ((c_str m.address).length + 1) % 4 ≠ 0 then 4 - ((c_str m.address).length + 1) % 4
        else 0) ∧
    (List.replicate (pfl - ((c_str m.format).length + 1)) 0).length =
      (if ((c_str m.format).length + 1) % 4 ≠ 0 then 4 - ((c_str m.format).length + 1) % 4
        else 0) ∧
    (c_str m.address).length + 1 ≤ pal ∧ (c_str m.format).length + 1 ≤ pfl := by
  have hlay := flatten_layout m pal pfl n ha hf hpa hpf hn hle
  have hA := OSC_SIZE_of_mem m.address ha
  have hF := OSC_SIZE_of_mem m.format hf
  rw [hpa] at hA; rw [hpf] at hF
  simp only [Except.ok.injEq] at hA hF
  have hpal : (c_str m.address).length + 1 ≤ pal := by rw [hA]; split <;> omega
  have hpfl : (c_str m.format).length + 1 ≤ pfl := by rw [hF]; split <;> omega
  have hpadA : List.replicate (pal - (c_str m.address).length) 0 =
      0 :: List.replicate (pal - ((c_str m.address).length + 1)) 0 := by
    have : pal - (c_str m.address).length = (pal - ((c_str m.address).length + 1)) + 1 := by omega
    rw [this, List.replicate_succ]
  have hpadF : List.replicate (pfl - (c_str m.format).length) 0 =
      0 :: List.replicate (pfl - ((c_str m.format).length + 1)) 0 := by
    have : pfl - (c_str m.format).length = (pfl - ((c_str m.format).length + 1)) + 1 := by omega
    rw [this, List.replicate_succ]
  refine ⟨?_, ?_, ?_, hpal, hpfl⟩
  · rw [hlay, hpadA, hpadF]
    simp only [List.append_assoc, List.cons_append]
  · rw [List.length_replicate, hA]; split <;> omega
  · rw [List.length_replicate, hF]; split <;> omega

theorem strcmp_eq_of_c_str (a : List Nat) (lit : String) (h0 : 0 ∈ a)
    (h : c_str a = bytes_of lit) : strcmp_eq a lit = true := by
  have hs := split_at_nul a h0
  rw [h] at hs
  simp only [strcmp_eq, beq_iff_eq, literal]
  rw [hs]
  have : bytes_of lit ++ 0 :: List.drop ((bytes_of lit).length + 1) a =
      (bytes_of lit ++ [0]) ++ List.drop ((bytes_of lit).length + 1) a := by simp
  rw [this]
  exact List.take_left' rfl

theorem swap_endian_lt (number : Nat) : swap_endian number < 4294967296 := by
  rw [swap_endian_bytes]
  omega

/-- The play handler always obtains two values below `2^32` from a data array of at least
8 bytes. -/
theorem play_arguments_ok (host : Endian) (data : List Nat) (h : 8 ≤ data.length) :
    ∃ pitch velocity, play_arguments host data = .ok (pitch, velocity) ∧
      pitch < 4294967296 ∧ velocity < 4294967296 ∧
      pitch = swap_endian (u32_of_bytes host (data.take 4)) := by
  have l1 : load data 0 4 = .ok (data.take 4) := by
    simp only [load, show 0 + 4 ≤ data.length by omega, if_true, List.drop_zero]
  have l2 : load data 4 4 = .ok ((data.drop 4).take 4) := by
    simp only [load, show 4 + 4 ≤ data.length by omega, if_true]
  refine ⟨swap_endian (u32_of_bytes host (data.take 4)),
    swap_endian (u32_of_bytes host ((data.drop 4).take 4)),
    by simp only [play_arguments, l1, l2], swap_endian_lt _, swap_endian_lt _, rfl⟩

/-- A negative `int` sent in network byte order is read by the little-endian play handler
as a value of at least `2^31`. -/
theorem negative_pitch_decoded (v : Int) (hneg : v < 0) (hmin : -2147483648 ≤ v) :
    swap_endian (u32_of_bytes .little (bytes_of_u32 .big (v % 4294967296).toNat)) =
      (v + 4294967296).toNat ∧ 2147483648 ≤ (v + 4294967296).toNat := by
  have hx : (v % 4294967296).toNat = (v + 4294967296).toNat := by omega
  rw [hx]
  generalize hX : (v + 4294967296).toNat = x
  have hx1 : 2147483648 ≤ x := by omega
  have hx2 : x < 4294967296 := by omega
  refine ⟨?_, hx1⟩
  simp only [bytes_of_u32]
  rw [swap_endian_little _ _ _ _ (Nat.mod_lt _ (by decide)) (Nat.mod_lt _ (by decide))
    (Nat.mod_lt _ (by decide)) (Nat.mod_lt _ (by decide))]
  omega

/-! ## Claims -/

/-- C2: for every NUL-terminated string `s` (bytes `s`, none of them NUL, followed in
memory by the terminator and anything else), `OSC_SIZE` returns a multiple of 4 that
is at least `len(s) + 1` and less than `len(s) + 1 + 4`: the least multiple of 4
that holds the string and its terminator. -/
theorem OSC_SIZE_rounds_up (s rest : List Nat) (hs : 0 ∉ s) :
    ∃ n, OSC_SIZE (s ++ 0 :: rest) = .ok n ∧
      n % 4 = 0 ∧ s.length + 1 ≤ n ∧ n < s.length + 1 + 4 ∧
      (∀ k, k % 4 = 0 → s.length + 1 ≤ k → n ≤ k) := by
  refine ⟨if (s.length + 1) % 4 ≠ 0 then s.length + 1 + (4 - (s.length + 1) % 4)
    else s.length + 1, by simp only [OSC_SIZE, strlen_append_nul s rest hs], ?_⟩
  by_cases h : (s.length + 1) % 4 = 0
  · simp only [h, ne_eq, not_true_eq_false, ite_false]
    refine ⟨trivial, le_refl _, by omega, fun k _ hk => hk⟩
  · simp only [ne_eq, h, not_false_eq_true, ite_true]
    refine ⟨by omega, by omega, by omega, fun k hk hle => by omega⟩

theorem OSC_SIZE_rounds_up_witness :
    ∃ n, OSC_SIZE (bytes_of "/a" ++ 0 :: [7, 7]) = .ok n ∧
      n % 4 = 0 ∧ (bytes_of "/a").length + 1 ≤ n ∧ n < (bytes_of "/a").length + 1 + 4 ∧
      (∀ k, k % 4 = 0 → (bytes_of "/a").length + 1 ≤ k → n ≤ k) :=
  OSC_SIZE_rounds_up (bytes_of "/a") [7, 7] (by decide)

/-- C3: for every message whose address and format arrays hold a terminated string and whose
`data_size` lies between 0 and the size of `data`, `flatten_oscmessage` returns a
buffer of length exactly `OSC_SIZE(address) + OSC_SIZE(format) + data_size`, the value
it stores in `*len_ptr`; the buffer is the address bytes and zero bytes up to offset
`OSC_SIZE(address)`, the format bytes and zero bytes up to offset
`OSC_SIZE(address) + OSC_SIZE(format)`, then the first `data_size` bytes of `data`
and nothing more. -/
theorem flatten_oscmessage_layout (msg : OSCMessage)
    (ha : 0 ∈ msg.address) (hf : 0 ∈ msg.format)
    (h0 : 0 ≤ msg.data_size) (hle : msg.data_size ≤ msg.data.length) :
    ∃ pal pfl stream,
      OSC_SIZE msg.address = .ok pal ∧ OSC_SIZE msg.format = .ok pfl ∧
      flatten_oscmessage msg = .ok (stream, (pal : Int) + pfl + msg.data_size) ∧
      (stream.length : Int) = (pal : Int) + pfl + msg.data_size ∧
      stream =
        c_str msg.address ++ List.replicate (pal - (c_str msg.address).length) 0 ++
        (c_str msg.format ++ List.replicate (pfl - (c_str msg.format).length) 0) ++
        msg.data.take msg.data_size.toNat ∧
      (c_str msg.address ++ List.replicate (pal - (c_str msg.address).length) 0).length = pal ∧
      (c_str msg.format ++ List.replicate (pfl - (c_str msg.format).length) 0).length = pfl ∧
      (msg.data.take msg.data_size.toNat).length = msg.data_size.toNat := by
  obtain ⟨pal, hpa, -, hpa1, -⟩ := OSC_SIZE_bounds msg.address ha
  obtain ⟨pfl, hpf, -, hpf1, -⟩ := OSC_SIZE_bounds msg.format hf
  obtain ⟨n, hn⟩ := Int.eq_ofNat_of_zero_le h0
  have hle' : n ≤ msg.data.length := by rw [hn] at hle; exact_mod_cast hle
  have hlay := flatten_layout msg pal pfl n ha hf hpa hpf hn hle'
  have hA : (c_str msg.address ++ List.replicate (pal - (c_str msg.address).length) 0).length
      = pal := by
    simp only [List.length_append, List.length_replicate]; omega
  have hF : (c_str msg.format ++ List.replicate (pfl - (c_str msg.format).length) 0).length
      = pfl := by
    simp only [List.length_append, List.length_replicate]; omega
  have hD : (msg.data.take n).length = n := by
    simp only [List.length_take]; omega
  refine ⟨pal, pfl, c_str msg.address ++ List.replicate (pal - (c_str msg.address).length) 0 ++
    (c_str msg.format ++ List.replicate (pfl - (c_str msg.format).length) 0) ++
    msg.data.take n, hpa, hpf, ?_, ?_, ?_, hA, hF, ?_⟩
  · rw [hlay, hn]; simp only [Nat.cast_add]
  · rw [List.length_append, List.length_append, hA, hF, hD, hn]; simp only [Nat.cast_add]
  · rw [hn, Int.toNat_ofNat]
  · rw [hn, Int.toNat_ofNat]; exact hD

theorem flatten_oscmessage_layout_witness :
    ∃ pal pfl stream,
      OSC_SIZE (literal "/a" ++ [7]) = .ok pal ∧ OSC_SIZE (literal ",i" ++ [7]) = .ok pfl ∧
      flatten_oscmessage ⟨literal "/a" ++ [7], literal ",i" ++ [7], [0, 0, 0, 36, 7], 4⟩
        = .ok (stream, (pal : Int) + pfl + 4) ∧
      (stream.length : Int) = (pal : Int) + pfl + 4 ∧
      stream =
        c_str (literal "/a" ++ [7]) ++
          List.replicate (pal - (c_str (literal "/a" ++ [7])).length) 0 ++
        (c_str (literal ",i" ++ [7]) ++
          List.replicate (pfl - (c_str (literal ",i" ++ [7])).length) 0) ++
        [0, 0, 0, 36, 7].take (4 : Int).toNat ∧
      (c_str (literal "/a" ++ [7]) ++
        List.replicate (pal - (c_str (literal "/a" ++ [7])).length) 0).length = pal ∧
      (c_str (literal ",i" ++ [7]) ++
        List.replicate (pfl - (c_str (literal ",i" ++ [7])).length) 0).length = pfl ∧
      ([0, 0, 0, 36, 7].take (4 : Int).toNat).length = (4 : Int).toNat :=
  flatten_oscmessage_layout ⟨literal "/a" ++ [7], literal ",i" ++ [7], [0, 0, 0, 36, 7], 4⟩
    (by decide) (by decide) (by decide) (by decide)

/-- C4: on the little-endian target (Cortex-M7 of the Nucleo-144 F767ZI) the call
`build_osc_message(addr, ",ii", 36, 100)` stores the two integers in host byte
order, least significant byte first: the payload is `24 00 00 00 64 00 00 00`, not
the big-endian `00 00 00 24 00 00 00 64`; only a big-endian host gives the latter. -/
theorem build_osc_message_keeps_host_order :
    (build_osc_message .little (fun _ => 0) (literal "/pvc_aerophone/play") (literal ",ii")
        [.int 36, .int 100]).map (fun m => (m.data.take 8, m.data_size))
      = .ok ([0x24, 0, 0, 0, 0x64, 0, 0, 0], 8) ∧
    (build_osc_message .big (fun _ => 0) (literal "/pvc_aerophone/play") (literal ",ii")
        [.int 36, .int 100]).map (fun m => (m.data.take 8, m.data_size))
      = .ok ([0, 0, 0, 0x24, 0, 0, 0, 0x64], 8) := by
  constructor <;> rfl

/-- C5: whatever the byte order of the host, the message built by
`build_osc_message(address, ",ii", 36, 100)` does not give 36 and 100 back to the
play handler: the extraction yields the byte-swapped values 603979776 and
1677721600, and `osc_dispatch` calls no driver board for it. -/
theorem build_then_play_arguments_swaps (host : Endian) :
    (build_osc_message host (fun _ => 0) (literal "/pvc_aerophone/play") (literal ",ii")
        [.int 36, .int 100]).bind (fun m => play_arguments host m.data)
      = .ok (603979776, 1677721600) ∧
    (build_osc_message host (fun _ => 0) (literal "/pvc_aerophone/play") (literal ",ii")
        [.int 36, .int 100]).bind (osc_dispatch host) = .ok [] := by
  cases host <;> exact ⟨rfl, rfl⟩

/-- C9: on the little-endian target, for every play message whose payload starts with the
bytes `b0 .. b7`, the play handler obtains `pitch = b0*2^24 + b1*2^16 + b2*2^8 + b3`
and `velocity = b4*2^24 + b5*2^16 + b6*2^8 + b7`, and `osc_dispatch` selects the
driver board from exactly these values. -/
theorem play_handler_reads_big_endian (b0 b1 b2 b3 b4 b5 b6 b7 : Nat)
    (rest address_rest format_rest : List Nat) (data_size : Int)
    (h : ∀ b ∈ [b0, b1, b2, b3, b4, b5, b6, b7], b < 256) :
    play_arguments .little (b0 :: b1 :: b2 :: b3 :: b4 :: b5 :: b6 :: b7 :: rest) =
      .ok (b0 * 2 ^ 24 + b1 * 2 ^ 16 + b2 * 2 ^ 8 + b3,
        b4 * 2 ^ 24 + b5 * 2 ^ 16 + b6 * 2 ^ 8 + b7) ∧
    osc_dispatch .little
      { address := literal "/pvc_aerophone/play" ++ address_rest
        format := literal ",ii" ++ format_rest
        data := b0 :: b1 :: b2 :: b3 :: b4 :: b5 :: b6 :: b7 :: rest
        data_size := data_size } =
      .ok (if b0 * 2 ^ 24 + b1 * 2 ^ 16 + b2 * 2 ^ 8 + b3 < 48 then
          [{ board := .left, pitch := b0 * 2 ^ 24 + b1 * 2 ^ 16 + b2 * 2 ^ 8 + b3,
             velocity := b4 * 2 ^ 24 + b5 * 2 ^ 16 + b6 * 2 ^ 8 + b7 }]
        else if b0 * 2 ^ 24 + b1 * 2 ^ 16 + b2 * 2 ^ 8 + b3 < 60 then
          [{ board := .right, pitch := b0 * 2 ^ 24 + b1 * 2 ^ 16 + b2 * 2 ^ 8 + b3,
             velocity := b4 * 2 ^ 24 + b5 * 2 ^ 16 + b6 * 2 ^ 8 + b7 }]
        else []) := by
  have hp := play_arguments_little b0 b1 b2 b3 b4 b5 b6 b7 rest h
  have e24 : (2 : Nat) ^ 24 = 16777216 := by norm_num
  have e16 : (2 : Nat) ^ 16 = 65536 := by norm_num
  have e8 : (2 : Nat) ^ 8 = 256 := by norm_num
  rw [e24, e16, e8]
  refine ⟨hp, ?_⟩
  rw [dispatch_play_message, hp]
  simp only
  split
  · rfl
  · split <;> rfl

theorem play_handler_reads_big_endian_witness :
    play_arguments .little [0x00, 0x00, 0x00, 0x24, 0x00, 0x00, 0x00, 0x64] = .ok (36, 100) ∧
    osc_dispatch .little
      { address := literal "/pvc_aerophone/play"
        format := literal ",ii"
        data := [0x00, 0x00, 0x00, 0x24, 0x00, 0x00, 0x00, 0x64]
        data_size := 8 } = .ok [{ board := .left, pitch := 36, velocity := 100 }] := by
  have h := play_handler_reads_big_endian 0x00 0x00 0x00 0x24 0x00 0x00 0x00 0x64 [] [] [] 8
    (by decide)
  simpa using h

/-- C8: `osc_dispatch` calls a driver board only if the first path segment of the address is
the instrument name, the second is `play` and the type tag is exactly `,ii`. A
message whose first segment is another name, whose second segment is not `play`, or
whose type tag differs from `,ii` is discarded: no driver board is called. -/
theorem osc_dispatch_routing (host : Endian) (msg : OSCMessage) :
    (∀ plays, osc_dispatch host msg = .ok plays → plays ≠ [] →
      c_str msg.format = bytes_of ",ii" ∧
      ∃ rest, path_segments (c_str msg.address) =
        bytes_of INSTRUMENT_NAME :: bytes_of "play" :: rest) ∧
    (∀ first rest, 0 ∈ msg.address → path_segments (c_str msg.address) = first :: rest →
      first ≠ bytes_of INSTRUMENT_NAME → osc_dispatch host msg = .ok []) ∧
    (∀ second rest, 0 ∈ msg.address →
      path_segments (c_str msg.address) = bytes_of INSTRUMENT_NAME :: second :: rest →
      second ≠ bytes_of "play" → osc_dispatch host msg = .ok []) ∧
    (∀ rest, 0 ∈ msg.address →
      path_segments (c_str msg.address) = bytes_of INSTRUMENT_NAME :: bytes_of "play" :: rest →
      c_str msg.format ≠ bytes_of ",ii" → osc_dispatch host msg = .ok []) := by
  refine ⟨?_, ?_, ?_, ?_⟩
  · intro plays hd hne
    have hmem : 0 ∈ msg.address := by
      by_contra hm
      simp only [osc_dispatch, strlen_none_of_not_mem _ hm] at hd
      exact Except.noConfusion hd
    rw [osc_dispatch_by_segments host msg hmem] at hd
    cases hp : path_segments (c_str msg.address) with
    | nil => rw [hp] at hd; exact Except.noConfusion hd
    | cons first more =>
      rw [hp] at hd
      by_cases h1 : first = bytes_of INSTRUMENT_NAME
      · simp only [ne_eq, h1, not_true_eq_false, if_false] at hd
        cases more with
        | nil => exact Except.noConfusion hd
        | cons second rest =>
          by_cases h2 : second = bytes_of "play"
          · simp only [h2, if_true] at hd
            cases hc : strcmp_eq msg.format ",ii" with
            | false =>
              simp only [hc, Bool.not_false, if_true, Except.ok.injEq] at hd
              exact absurd hd.symm hne
            | true =>
              exact ⟨c_str_of_strcmp_eq _ _ (by decide) hc, rest, by rw [h1, h2]⟩
          · simp only [h2, if_false, Except.ok.injEq] at hd
            exact absurd hd.symm hne
      · simp only [ne_eq, h1, not_false_eq_true, if_true, Except.ok.injEq] at hd
        exact absurd hd.symm hne
  · intro first rest hmem hp h1
    rw [osc_dispatch_by_segments host msg hmem, hp]
    simp only [ne_eq, h1, not_false_eq_true, if_true]
  · intro second rest hmem hp h2
    rw [osc_dispatch_by_segments host msg hmem, hp]
    simp only [ne_eq, not_true_eq_false, if_false, h2]
  · intro rest hmem hp hf
    rw [osc_dispatch_by_segments host msg hmem, hp]
    have hc : strcmp_eq msg.format ",ii" = false := by
      cases hb : strcmp_eq msg.format ",ii"
      · rfl
      · exact absurd (c_str_of_strcmp_eq _ _ (by decide) hb) hf
    simp only [ne_eq, not_true_eq_false, if_false, if_true, hc, Bool.not_false]

theorem osc_dispatch_routing_witness :
    (c_str (literal ",ii") = bytes_of ",ii" ∧
      ∃ rest, path_segments (c_str (literal "/pvc_aerophone/play")) =
        bytes_of INSTRUMENT_NAME :: bytes_of "play" :: rest) ∧
    osc_dispatch .little
      ⟨literal "/flute/play", literal ",ii", [0, 0, 0, 36, 0, 0, 0, 100], 8⟩ = .ok [] ∧
    osc_dispatch .little
      ⟨literal "/pvc_aerophone/stop", literal ",ii", [0, 0, 0, 36, 0, 0, 0, 100], 8⟩ = .ok [] ∧
    osc_dispatch .little
      ⟨literal "/pvc_aerophone/play", literal ",if", [0, 0, 0, 36, 0, 0, 0, 100], 8⟩ = .ok [] :=
  ⟨(osc_dispatch_routing .little
      ⟨literal "/pvc_aerophone/play", literal ",ii", [0, 0, 0, 36, 0, 0, 0, 100], 8⟩).1
      [{ board := .left, pitch := 36, velocity := 100 }] (by rfl) (by decide),
   (osc_dispatch_routing .little
      ⟨literal "/flute/play", literal ",ii", [0, 0, 0, 36, 0, 0, 0, 100], 8⟩).2.1
      (bytes_of "flute") [bytes_of "play"] (by decide) (by decide) (by decide),
   (osc_dispatch_routing .little
      ⟨literal "/pvc_aerophone/stop", literal ",ii", [0, 0, 0, 36, 0, 0, 0, 100], 8⟩).2.2.1
      (bytes_of "stop") [] (by decide) (by decide) (by decide),
   (osc_dispatch_routing .little
      ⟨literal "/pvc_aerophone/play", literal ",if", [0, 0, 0, 36, 0, 0, 0, 100], 8⟩).2.2.2
      [] (by decide) (by decide) (by decide)⟩

/-- C10: `connect` returns normally only if the broadcast `sendto` of the registration
message succeeded and the `recvfrom` issued after it on the acknowledgment port
delivered a datagram; the controller address is then the sender of that datagram.
The socket calls of a normal return are, in order: the broadcast `sendto`, the
`bind` to port 8001 and one `recvfrom`. -/
theorem connect_returns_only_after_receipt (self : OSCClient) (host : Endian)
    (junk : Nat → Nat) (net : Handshake) (calls : List Call) (self' : OSCClient)
    (hv : net.recvfrom_result.valid)
    (h : self.connect host junk net = (calls, .returned self')) :
    0 ≤ net.sendto_result ∧
    ∃ sender bytes msg_buf,
      net.recvfrom_result = .datagram sender bytes ∧
      self'.controller = sender ∧ self'.address = self.address ∧
      calls =
        [Call.set_blocking .udp_broadcast true, Call.set_broadcast .udp_broadcast true,
          Call.sendto .udp_broadcast { ip := BROADCAST_IP, port := OSC_PORT } msg_buf,
          Call.set_broadcast .udp_broadcast false, Call.set_blocking .udp_broadcast false,
          Call.set_blocking .udp true, Call.bind .udp (OSC_PORT + 1),
          Call.recvfrom .udp OSC_MSG_SIZE, Call.set_blocking .udp false] := by
  unfold OSCClient.connect at h
  simp only at h
  split at h
  · simp only [Prod.mk.injEq] at h; exact Ending.noConfusion h.2
  · split at h
    · simp only [Prod.mk.injEq] at h; exact Ending.noConfusion h.2
    · rename_i msg _ msg_buf len _
      split at h
      · simp only [Prod.mk.injEq] at h; exact Ending.noConfusion h.2
      · rename_i hsend
        cases hr : net.recvfrom_result with
        | error code =>
          rw [hr] at hv h
          have hcode : code < 0 := hv
          simp only [recvfrom, hcode, if_true, Prod.mk.injEq] at h
          exact Ending.noConfusion h.2
        | datagram sender bytes =>
          rw [hr] at h
          simp only [recvfrom] at h
          split at h
          · simp only [Prod.mk.injEq] at h; exact Ending.noConfusion h.2
          · simp only [Prod.mk.injEq, Ending.returned.injEq] at h
            obtain ⟨hc, hs⟩ := h
            refine ⟨by omega, sender, bytes, msg_buf, rfl, ?_, ?_, ?_⟩
            · rw [← hs]
            · rw [← hs]
            · rw [← hc]; rfl

theorem connect_returns_only_after_receipt_witness :
    (0 : Int) ≤ 44 ∧
    ∃ sender bytes msg_buf,
      Recv.datagram { ip := "192.168.2.10", port := 9000 } [47, 111, 107, 0] =
        .datagram sender bytes ∧
      ({ controller := { ip := "192.168.2.10", port := 9000 },
         address := { ip := "192.168.2.77", port := 8000 } } : OSCClient).controller = sender ∧
      ({ controller := { ip := "192.168.2.10", port := 9000 },
         address := { ip := "192.168.2.77", port := 8000 } } : OSCClient).address =
        ({ controller := { ip := BROADCAST_IP, port := OSC_PORT },
           address := { ip := "192.168.2.77", port := 8000 } } : OSCClient).address ∧
      [Call.set_blocking .udp_broadcast true, Call.set_broadcast .udp_broadcast true,
        Call.sendto .udp_broadcast { ip := BROADCAST_IP, port := OSC_PORT }
          (literal "/NoticeMe" ++ [0, 0] ++ literal ",ss" ++ literal "pvc_aerophone" ++ [0, 0] ++
            literal "192.168.2.77" ++ [0, 0, 0]),
        Call.set_broadcast .udp_broadcast false, Call.set_blocking .udp_broadcast false,
        Call.set_blocking .udp true, Call.bind .udp (OSC_PORT + 1),
        Call.recvfrom .udp OSC_MSG_SIZE, Call.set_blocking .udp false] =
        [Call.set_blocking .udp_broadcast true, Call.set_broadcast .udp_broadcast true,
          Call.sendto .udp_broadcast { ip := BROADCAST_IP, port := OSC_PORT } msg_buf,
          Call.set_broadcast .udp_broadcast false, Call.set_blocking .udp_broadcast false,
          Call.set_blocking .udp true, Call.bind .udp (OSC_PORT + 1),
          Call.recvfrom .udp OSC_MSG_SIZE, Call.set_blocking .udp false] :=
  connect_returns_only_after_receipt
    { controller := { ip := BROADCAST_IP, port := OSC_PORT },
      address := { ip := "192.168.2.77", port := 8000 } }
    .little (fun _ => 0)
    { sendto_result := 44, bind_status := 0,
      recvfrom_result := .datagram { ip := "192.168.2.10", port := 9000 } [47, 111, 107, 0] }
    _ _ trivial rfl

/-- C6, as the code has it: `receive` reports a failure exactly when the transport delivered
nothing. An error code or an empty datagram is returned as it is, with the message
untouched. A non-empty datagram is never reported as a failure: every call that
completes returns the positive byte count. There is no check for a missing NUL: a
datagram with no NUL at all (address not terminated within the received length)
gives no defined result, since `strlen` runs on past the received bytes and the
byte count for `memcpy` comes out negative. -/
theorem receive_fails_only_on_nothing_received (self : OSCClient) (junk : Nat → Nat)
    (msg : OSCMessage) (sender : SocketAddress) (d : List Nat) :
    (∀ code, code ≤ 0 →
      self.receive junk (.error code) msg = .ok { ret := code, msg := msg, self := self }) ∧
    (d = [] →
      self.receive junk (.datagram sender d) msg =
        .ok { ret := 0, msg := msg, self := { self with controller := sender } }) ∧
    (d ≠ [] → ∀ r, self.receive junk (.datagram sender d) msg = .ok r →
      0 < r.ret ∧ r.ret = (d.take OSC_MSG_SIZE).length) ∧
    (d ≠ [] → 0 ∉ d.take OSC_MSG_SIZE →
      ∃ f, self.receive junk (.datagram sender d) msg = .error f) := by
  have hpos : d ≠ [] → ¬ (((d.take OSC_MSG_SIZE).length : Nat) : Int) ≤ 0 := by
    intro hd
    cases d with
    | nil => exact absurd rfl hd
    | cons b bs =>
      simp only [OSC_MSG_SIZE, List.take_succ_cons, List.length_cons]
      omega
  refine ⟨?_, ?_, ?_, ?_⟩
  · intro code hcode
    simp only [OSCClient.receive, recvfrom, hcode, if_true]
  · intro hd
    subst hd
    simp [OSCClient.receive, recvfrom]
  · intro hd r hr
    have hp := hpos hd
    simp only [OSCClient.receive, recvfrom, hp, if_false] at hr
    split at hr
    · exact Except.noConfusion hr
    · simp only [Except.ok.injEq] at hr
      rw [← hr]
      exact ⟨lt_of_not_le hp, rfl⟩
  · intro hd h0
    have hp := hpos hd
    simp only [OSCClient.receive, recvfrom, hp, if_false]
    obtain ⟨f, hf⟩ := receive_decode_unterminated
      (d.take OSC_MSG_SIZE ++ (malloc junk OSC_MSG_SIZE).drop (d.take OSC_MSG_SIZE).length)
      (((d.take OSC_MSG_SIZE).length : Nat) : Int)
      (fun n hn => by
        have := le_strlen_of_prefix _ _ n h0 hn
        omega)
    exact ⟨f, by rw [hf]⟩

theorem receive_fails_only_on_nothing_received_witness :
    (OSCClient.receive ⟨⟨"192.168.2.10", 9000⟩, ⟨"192.168.2.77", 8000⟩⟩ (fun _ => 0)
        (.error (-3001)) ⟨[1], [2], [3], 4⟩ =
      .ok { ret := -3001, msg := ⟨[1], [2], [3], 4⟩,
            self := ⟨⟨"192.168.2.10", 9000⟩, ⟨"192.168.2.77", 8000⟩⟩ }) ∧
    (OSCClient.receive ⟨⟨"192.168.2.10", 9000⟩, ⟨"192.168.2.77", 8000⟩⟩ (fun _ => 0)
        (.datagram ⟨"192.168.2.10", 9000⟩ []) ⟨[1], [2], [3], 4⟩ =
      .ok { ret := 0, msg := ⟨[1], [2], [3], 4⟩,
            self := ⟨⟨"192.168.2.10", 9000⟩, ⟨"192.168.2.77", 8000⟩⟩ }) ∧
    (0 < (6 : Int) ∧ (6 : Int) = (([47, 0, 9, 9, 44, 105] : List Nat).take OSC_MSG_SIZE).length) ∧
    (∃ f, OSCClient.receive ⟨⟨"192.168.2.10", 9000⟩, ⟨"192.168.2.77", 8000⟩⟩ (fun _ => 0)
        (.datagram ⟨"192.168.2.10", 9000⟩ [47, 97]) ⟨[1], [2], [3], 4⟩ = .error f) :=
  ⟨(receive_fails_only_on_nothing_received ⟨⟨"192.168.2.10", 9000⟩, ⟨"192.168.2.77", 8000⟩⟩
      (fun _ => 0) ⟨[1], [2], [3], 4⟩ ⟨"192.168.2.10", 9000⟩ []).1 (-3001) (by decide),
   (receive_fails_only_on_nothing_received ⟨⟨"192.168.2.10", 9000⟩, ⟨"192.168.2.77", 8000⟩⟩
      (fun _ => 0) ⟨[1], [2], [3], 4⟩ ⟨"192.168.2.10", 9000⟩ []).2.1 rfl,
   (receive_fails_only_on_nothing_received ⟨⟨"192.168.2.10", 9000⟩, ⟨"192.168.2.77", 8000⟩⟩
      (fun _ => 0) ⟨[1], [2], [3], 4⟩ ⟨"192.168.2.10", 9000⟩ [47, 0, 9, 9, 44, 105]).2.2.1
      (by decide)
      { ret := 6
        msg := { address := 47 :: List.replicate 63 0
                 format := 44 :: 105 :: List.replicate 14 0
                 data := List.replicate 128 0
                 data_size := 1 }
        self := ⟨⟨"192.168.2.10", 9000⟩, ⟨"192.168.2.77", 8000⟩⟩ } (by rfl),
   (receive_fails_only_on_nothing_received ⟨⟨"192.168.2.10", 9000⟩, ⟨"192.168.2.77", 8000⟩⟩
      (fun _ => 0) ⟨[1], [2], [3], 4⟩ ⟨"192.168.2.10", 9000⟩ [47, 97]).2.2.2
      (by decide) (by decide)⟩

/-- C6 fails: the 6-byte datagram `"/" NUL 09 09 ",i"` has no NUL for its type tag within
the received length, yet `receive` returns the positive count 6 with a populated
message (address `/`, format `,i`, one payload byte). The terminator of the tag is
found at buffer index 6 and the payload byte is read at index 8, both beyond the
received length: with another content of the uninitialised buffer the decoded payload
byte changes. -/
theorem receive_accepts_truncated_tag :
    0 ∉ ([47, 0, 9, 9, 44, 105] : List Nat).drop 4 ∧
    OSCClient.receive ⟨⟨"192.168.2.10", 9000⟩, ⟨"192.168.2.77", 8000⟩⟩ (fun _ => 0)
        (.datagram ⟨"192.168.2.10", 9000⟩ [47, 0, 9, 9, 44, 105]) ⟨[1], [2], [3], 4⟩ =
      .ok { ret := 6
            msg := { address := 47 :: List.replicate 63 0
                     format := 44 :: 105 :: List.replicate 14 0
                     data := List.replicate 128 0
                     data_size := 1 }
            self := ⟨⟨"192.168.2.10", 9000⟩, ⟨"192.168.2.77", 8000⟩⟩ } ∧
    (OSCClient.receive ⟨⟨"192.168.2.10", 9000⟩, ⟨"192.168.2.77", 8000⟩⟩
        (fun i => if i = 8 then 255 else 0)
        (.datagram ⟨"192.168.2.10", 9000⟩ [47, 0, 9, 9, 44, 105]) ⟨[1], [2], [3], 4⟩).map
        (fun r => (r.ret, r.msg.data_size, r.msg.data.take 1)) = .ok (6, 1, [255]) := by
  refine ⟨by decide, by rfl, by rfl⟩

/-- C1: the round trip does not give the message back. For the well-formed message with
address `/a`, type tag `,i` and the 4-byte payload `00 00 00 24`, the stream of
`flatten_oscmessage` has 12 bytes; `receive` decodes address and type tag correctly
but sets `data_size` to 6 instead of 4, because it subtracts the unpadded string
lengths, and copies two bytes from beyond the received stream into `data`. -/
theorem roundtrip_counts_padding_as_payload :
    flatten_oscmessage
        { address := literal "/a" ++ List.replicate 61 0
          format := literal ",i" ++ List.replicate 13 0
          data := [0, 0, 0, 36] ++ List.replicate 124 0
          data_size := 4 } =
      .ok ([47, 97, 0, 0, 44, 105, 0, 0, 0, 0, 0, 36], 12) ∧
    (flatten_oscmessage
        { address := literal "/a" ++ List.replicate 61 0
          format := literal ",i" ++ List.replicate 13 0
          data := [0, 0, 0, 36] ++ List.replicate 124 0
          data_size := 4 }).bind
      (fun stream =>
        (OSCClient.receive ⟨⟨"192.168.2.10", 9000⟩, ⟨"192.168.2.77", 8000⟩⟩ (fun _ => 7)
          (.datagram ⟨"192.168.2.10", 9000⟩ stream.1) ⟨[], [], [], 0⟩).map
          (fun r => (c_str r.msg.address, c_str r.msg.format, r.msg.data_size,
            r.msg.data.take 6))) =
      .ok (bytes_of "/a", bytes_of ",i", 6, [0, 0, 0, 36, 7, 7]) := by
  refine ⟨by rfl, by rfl⟩

/-- C7: for the 12-byte datagram made of `/a` padded to 4 bytes, `,i` padded to 4 bytes and
the 4 payload bytes `00 00 00 24`, `receive` records `data_size = 6`, not
`12 - OSC_SIZE("/a") - OSC_SIZE(",i") = 4`: it subtracts the unpadded lengths 3 and 3.
The two extra bytes of `data` are read from the buffer beyond the received length. -/
theorem receive_counts_padding_as_payload :
    OSC_SIZE (literal "/a") = .ok 4 ∧ OSC_SIZE (literal ",i") = .ok 4 ∧
    (OSCClient.receive ⟨⟨"192.168.2.10", 9000⟩, ⟨"192.168.2.77", 8000⟩⟩ (fun _ => 7)
        (.datagram ⟨"192.168.2.10", 9000⟩
          (literal "/a" ++ [0] ++ (literal ",i" ++ [0]) ++ [0, 0, 0, 36]))
        ⟨[], [], [], 0⟩).map
      (fun r => (r.ret, r.msg.data_size, r.msg.data.take 6)) =
      .ok (12, 6, [0, 0, 0, 36, 7, 7]) := by
  refine ⟨by rfl, by rfl, by rfl⟩

/-- C11, as the code has it: `send` never changes the controller address, and a `receive`
that gets no datagram (an error code, which includes would-block) leaves the whole
client as it was. A `receive` that gets a datagram hands `&this->controller` to
`recvfrom`: after every such call that completes the controller address is the
sender of that datagram, whatever it was before; the instrument's own address is
never changed. -/
theorem controller_after_send_and_receive (self : OSCClient) (junk : Nat → Nat)
    (msg : OSCMessage) :
    (∀ sendto_result s, self.send sendto_result msg = .ok s → s.self = self) ∧
    (∀ code, code ≤ 0 →
      self.receive junk (.error code) msg = .ok { ret := code, msg := msg, self := self }) ∧
    (∀ sender bytes r, self.receive junk (.datagram sender bytes) msg = .ok r →
      r.self.controller = sender ∧ r.self.address = self.address) := by
  refine ⟨?_, ?_, ?_⟩
  · intro sendto_result s hs
    unfold OSCClient.send at hs
    split at hs
    · exact Except.noConfusion hs
    · simp only [Except.ok.injEq] at hs
      rw [← hs]
  · intro code hcode
    simp only [OSCClient.receive, recvfrom, hcode, if_true]
  · intro sender bytes r hr
    simp only [OSCClient.receive, recvfrom] at hr
    split at hr
    · simp only [Except.ok.injEq] at hr
      rw [← hr]
      exact ⟨rfl, rfl⟩
    · split at hr
      · exact Except.noConfusion hr
      · simp only [Except.ok.injEq] at hr
        rw [← hr]
        exact ⟨rfl, rfl⟩

theorem controller_after_send_and_receive_witness :
    (({ ret := 32
        call := Call.sendto .udp ⟨"192.168.2.10", 9000⟩
          (literal "/pvc_aerophone/play" ++ literal ",ii" ++ [0, 0, 0, 36, 0, 0, 0, 100])
        self := ⟨⟨"192.168.2.10", 9000⟩, ⟨"192.168.2.77", 8000⟩⟩ } : Sent).self =
      ⟨⟨"192.168.2.10", 9000⟩, ⟨"192.168.2.77", 8000⟩⟩) ∧
    (OSCClient.receive ⟨⟨"192.168.2.10", 9000⟩, ⟨"192.168.2.77", 8000⟩⟩ (fun _ => 0)
        (.error (-3001))
        ⟨literal "/pvc_aerophone/play", literal ",ii", [0, 0, 0, 36, 0, 0, 0, 100], 8⟩ =
      .ok { ret := -3001
            msg := ⟨literal "/pvc_aerophone/play", literal ",ii", [0, 0, 0, 36, 0, 0, 0, 100], 8⟩
            self := ⟨⟨"192.168.2.10", 9000⟩, ⟨"192.168.2.77", 8000⟩⟩ }) ∧
    (({ ret := 28
        msg := { address := bytes_of "/pvc_aerophone/play" ++ List.replicate 45 0
                 format := bytes_of ",ii" ++ List.replicate 13 0
                 data := [0, 0, 0, 36] ++ List.replicate 124 0
                 data_size := 4 }
        self := ⟨⟨"10.0.0.66", 1234⟩, ⟨"192.168.2.77", 8000⟩⟩ } : Received).self.controller =
        ⟨"10.0.0.66", 1234⟩ ∧
      ({ ret := 28
         msg := { address := bytes_of "/pvc_aerophone/play" ++ List.replicate 45 0
                  format := bytes_of ",ii" ++ List.replicate 13 0
                  data := [0, 0, 0, 36] ++ List.replicate 124 0
                  data_size := 4 }
         self := ⟨⟨"10.0.0.66", 1234⟩, ⟨"192.168.2.77", 8000⟩⟩ } : Received).self.address =
        (⟨⟨"192.168.2.10", 9000⟩, ⟨"192.168.2.77", 8000⟩⟩ : OSCClient).address) :=
  ⟨(controller_after_send_and_receive ⟨⟨"192.168.2.10", 9000⟩, ⟨"192.168.2.77", 8000⟩⟩
      (fun _ => 0)
      ⟨literal "/pvc_aerophone/play", literal ",ii", [0, 0, 0, 36, 0, 0, 0, 100], 8⟩).1 32 _
      (by rfl),
   (controller_after_send_and_receive ⟨⟨"192.168.2.10", 9000⟩, ⟨"192.168.2.77", 8000⟩⟩
      (fun _ => 0)
      ⟨literal "/pvc_aerophone/play", literal ",ii", [0, 0, 0, 36, 0, 0, 0, 100], 8⟩).2.1
      (-3001) (by decide),
   (controller_after_send_and_receive ⟨⟨"192.168.2.10", 9000⟩, ⟨"192.168.2.77", 8000⟩⟩
      (fun _ => 0)
      ⟨literal "/pvc_aerophone/play", literal ",ii", [0, 0, 0, 36, 0, 0, 0, 100], 8⟩).2.2
      ⟨"10.0.0.66", 1234⟩
      (literal "/pvc_aerophone/play" ++ literal ",ii" ++ [0, 0, 0, 36]) _ (by rfl)⟩

/-- C11 fails: a steady-state `receive` of a datagram sent from 10.0.0.66:1234 completes and
leaves 10.0.0.66:1234 as controller address, where 192.168.2.10:9000 was registered
by the handshake. -/
theorem receive_overwrites_controller :
    (OSCClient.receive ⟨⟨"192.168.2.10", 9000⟩, ⟨"192.168.2.77", 8000⟩⟩ (fun _ => 0)
        (.datagram ⟨"10.0.0.66", 1234⟩
          (literal "/pvc_aerophone/play" ++ literal ",ii" ++ [0, 0, 0, 36, 0, 0, 0, 100]))
        ⟨[], [], [], 0⟩).map (fun r => (r.ret, r.self.controller)) =
      .ok (32, ⟨"10.0.0.66", 1234⟩) ∧
    (⟨"10.0.0.66", 1234⟩ : SocketAddress) ≠
      (⟨⟨"192.168.2.10", 9000⟩, ⟨"192.168.2.77", 8000⟩⟩ : OSCClient).controller := by
  refine ⟨by rfl, by decide⟩

/-- C12: `connect` never looks at the status of `bind`. With the acknowledgment port not
bound (status -3005) and the other two calls successful it goes on to `recvfrom`
and returns as registered; in general its calls and its ending are the same for
every `bind` status. -/
theorem connect_ignores_bind_status :
    (OSCClient.connect ⟨⟨BROADCAST_IP, OSC_PORT⟩, ⟨"192.168.2.77", 8000⟩⟩ .little (fun _ => 0)
        { sendto_result := 44, bind_status := -3005,
          recvfrom_result := .datagram ⟨"192.168.2.10", 9000⟩ [47, 111, 107, 0] }).2 =
      .returned ⟨⟨"192.168.2.10", 9000⟩, ⟨"192.168.2.77", 8000⟩⟩ ∧
    ((OSCClient.connect ⟨⟨BROADCAST_IP, OSC_PORT⟩, ⟨"192.168.2.77", 8000⟩⟩ .little (fun _ => 0)
        { sendto_result := 44, bind_status := -3005,
          recvfrom_result := .datagram ⟨"192.168.2.10", 9000⟩ [47, 111, 107, 0] }).1.drop 6 =
      [Call.bind .udp 8001, Call.recvfrom .udp 256, Call.set_blocking .udp false]) ∧
    (∀ (self : OSCClient) (host : Endian) (junk : Nat → Nat) (net : Handshake) (status : Int),
      self.connect host junk { net with bind_status := status } = self.connect host junk net) := by
  refine ⟨by rfl, by rfl, ?_⟩
  intro self host junk net status
  rfl

/-- C15: for every message that `build_osc_message` returns, whatever the address, the type
tag and the arguments, `data_size` is a multiple of 4, and `flatten_oscmessage`
returns for it a buffer whose length, the value stored in `*len_ptr`, is a multiple of 4. -/
theorem built_sizes_multiple_of_four (host : Endian) (junk : Nat → Nat)
    (address format : List Nat) (args : List VaArg) (msg : OSCMessage)
    (h : build_osc_message host junk address format args = .ok msg) :
    msg.data_size % 4 = 0 ∧
    ∃ stream len, flatten_oscmessage msg = .ok (stream, len) ∧ len % 4 = 0 ∧
      (stream.length : Int) = len := by
  obtain ⟨ha, hf, hl, i, -, hi, hle, h4⟩ := build_osc_message_ok host junk address format args msg h
  obtain ⟨pal, hpa, hpa4, -, -⟩ := OSC_SIZE_bounds msg.address ha
  obtain ⟨pfl, hpf, hpf4, -, -⟩ := OSC_SIZE_bounds msg.format hf
  have hlay := flatten_layout msg pal pfl i ha hf hpa hpf hi (by rw [hl]; exact hle)
  refine ⟨by rw [hi]; omega, _, _, hlay, by omega, ?_⟩
  simp only [List.length_append, List.length_replicate, List.length_take]
  have := (OSC_SIZE_bounds msg.address ha)
  obtain ⟨pal', hpa', -, hge, -⟩ := this
  rw [hpa] at hpa'; cases hpa'
  obtain ⟨pfl', hpf', -, hgf, -⟩ := OSC_SIZE_bounds msg.format hf
  rw [hpf] at hpf'; cases hpf'
  rw [hl]
  have : min i OSC_SIZE_DATA = i := Nat.min_eq_left hle
  rw [this]
  push_cast
  omega

theorem built_sizes_multiple_of_four_witness :
    (20 : Int) % 4 = 0 ∧
    ∃ stream len,
      flatten_oscmessage
        { address := literal "/NoticeMe" ++ List.replicate 54 7
          format := literal ",si" ++ List.replicate 12 7
          data := literal "pvc_aerophone" ++ [0, 0] ++ [42, 0, 0, 0] ++ List.replicate 108 7
          data_size := 20 } = .ok (stream, len) ∧ len % 4 = 0 ∧ (stream.length : Int) = len :=
  built_sizes_multiple_of_four .little (fun _ => 7) (literal "/NoticeMe") (literal ",si")
    [.pointer (literal "pvc_aerophone"), .int 42]
    { address := literal "/NoticeMe" ++ List.replicate 54 7
      format := literal ",si" ++ List.replicate 12 7
      data := literal "pvc_aerophone" ++ [0, 0] ++ [42, 0, 0, 0] ++ List.replicate 108 7
      data_size := 20 } (by rfl)

/-- C14: for every type tag made of `,` and characters that match the arguments (`i` with an
`int`, `f` with a `double`, `s` with a terminated string), an address that fits and
arguments whose encodings fit the 128 bytes of `data`, `build_osc_message` returns a
message whose `data_size` is the sum of the encoded sizes of the arguments: 4 for
each `i` and `f`, `OSC_SIZE(s)` for each `s`. -/
theorem build_osc_message_data_size (host : Endian) (junk : Nat → Nat) (address tag : List Nat)
    (args : List VaArg)
    (ha : 0 ∈ address) (hla : (c_str address).length < OSC_SIZE_ADDRESS)
    (htag : tag.length + 2 ≤ OSC_SIZE_FORMAT)
    (hm : List.Forall₂ tag_matches tag args)
    (hfit : (args.map encoded_size).sum ≤ OSC_SIZE_DATA) :
    ∃ msg, build_osc_message host junk address (44 :: tag ++ [0]) args = .ok msg ∧
      msg.data_size = (((args.map encoded_size).sum : Nat) : Int) ∧
      (∀ v, encoded_size (.int v) = 4) ∧ (∀ b, encoded_size (.double b) = 4) ∧
      (∀ s, 0 ∈ s → OSC_SIZE s = .ok (encoded_size (.pointer s))) := by
  obtain ⟨msg, hb, hs, -⟩ := build_osc_message_matching host junk address tag args ha hla htag hm hfit
  refine ⟨msg, hb, hs, fun _ => rfl, fun _ => rfl, ?_⟩
  intro s hs0
  obtain ⟨n, hn, -⟩ := OSC_SIZE_bounds s hs0
  simp only [encoded_size, hn]

theorem build_osc_message_data_size_witness :
    ∃ msg, build_osc_message .little (fun _ => 7) (literal "/mix")
        (44 :: [105, 115, 102] ++ [0])
        [.int 36, .pointer (literal "pvc_aerophone"), .double 1065353216] = .ok msg ∧
      msg.data_size = ((([VaArg.int 36, .pointer (literal "pvc_aerophone"),
        .double 1065353216].map encoded_size).sum : Nat) : Int) ∧
      (∀ v, encoded_size (.int v) = 4) ∧ (∀ b, encoded_size (.double b) = 4) ∧
      (∀ s, 0 ∈ s → OSC_SIZE s = .ok (encoded_size (.pointer s))) :=
  build_osc_message_data_size .little (fun _ => 7) (literal "/mix") [105, 115, 102]
    [.int 36, .pointer (literal "pvc_aerophone"), .double 1065353216]
    (by decide) (by decide) (by decide)
    (.cons rfl (.cons ⟨rfl, by decide⟩ (.cons rfl .nil))) (by decide)

/-- C13: for every instrument IP string shorter than 100 characters, the datagram that
`connect` broadcasts, the flattened `build_osc_message("/NoticeMe", ",ss",
"pvc_aerophone", ip)`, is `/NoticeMe` zero-padded to 12 bytes, `,ss` and its NUL in
4 bytes, `pvc_aerophone` zero-padded to 16 bytes, then `ip` zero-padded to
`OSC_SIZE(ip)` bytes, `32 + OSC_SIZE(ip)` bytes in all. -/
theorem registration_datagram (self : OSCClient) (host : Endian) (junk : Nat → Nat)
    (net : Handshake)
    (h0 : 0 ∉ bytes_of self.address.ip) (hlen : (bytes_of self.address.ip).length < 100) :
    ∃ n msg datagram, OSC_SIZE self.address.get_ip_address = .ok n ∧
      build_osc_message host junk (literal "/NoticeMe") (literal ",ss")
        [.pointer (literal INSTRUMENT_NAME), .pointer self.address.get_ip_address] = .ok msg ∧
      flatten_oscmessage msg = .ok (datagram, ((32 + n : Nat) : Int)) ∧
      datagram =
        (bytes_of "/NoticeMe" ++ List.replicate (12 - 9) 0) ++
        (bytes_of ",ss" ++ List.replicate (4 - 3) 0) ++
        (bytes_of "pvc_aerophone" ++ List.replicate (16 - 13) 0) ++
        (bytes_of self.address.ip ++ List.replicate (n - (bytes_of self.address.ip).length) 0) ∧
      datagram.length = 32 + n ∧
      (bytes_of self.address.ip ++
        List.replicate (n - (bytes_of self.address.ip).length) 0).length = n ∧
      Call.sendto .udp_broadcast { ip := BROADCAST_IP, port := OSC_PORT } datagram ∈
        (self.connect host junk net).1 := by
  obtain ⟨n, msg, hn, hn4, hge, hlt, hb, hfl⟩ :=
    registration_message host junk self.address.ip h0 hlen
  have hlast : (bytes_of self.address.ip ++
      List.replicate (n - (bytes_of self.address.ip).length) 0).length = n := by
    simp only [List.length_append, List.length_replicate]; omega
  refine ⟨n, msg, _, hn, hb, hfl, ?_, ?_, hlast, ?_⟩
  · simp only [INSTRUMENT_NAME, List.append_assoc]
  · have hl1 : (bytes_of "/NoticeMe").length = 9 := by decide
    have hl2 : (bytes_of ",ss").length = 3 := by decide
    have hl3 : (bytes_of INSTRUMENT_NAME).length = 13 := by decide
    simp only [List.length_append, List.length_replicate, hl1, hl2, hl3]
    omega
  · unfold OSCClient.connect
    simp only [SocketAddress.get_ip_address, hb, hfl]
    split
    · simp
    · split <;> simp

theorem registration_datagram_witness :
    (∃ n msg datagram, OSC_SIZE (literal "10.0.0.5") = .ok n ∧
      build_osc_message .little (fun _ => 7) (literal "/NoticeMe") (literal ",ss")
        [.pointer (literal INSTRUMENT_NAME), .pointer (literal "10.0.0.5")] = .ok msg ∧
      flatten_oscmessage msg = .ok (datagram, ((32 + n : Nat) : Int)) ∧
      datagram =
        (bytes_of "/NoticeMe" ++ List.replicate (12 - 9) 0) ++
        (bytes_of ",ss" ++ List.replicate (4 - 3) 0) ++
        (bytes_of "pvc_aerophone" ++ List.replicate (16 - 13) 0) ++
        (bytes_of "10.0.0.5" ++ List.replicate (n - (bytes_of "10.0.0.5").length) 0) ∧
      datagram.length = 32 + n ∧
      (bytes_of "10.0.0.5" ++ List.replicate (n - (bytes_of "10.0.0.5").length) 0).length = n ∧
      Call.sendto .udp_broadcast { ip := BROADCAST_IP, port := OSC_PORT } datagram ∈
        (OSCClient.connect ⟨⟨BROADCAST_IP, OSC_PORT⟩, ⟨"10.0.0.5", 8000⟩⟩ .little (fun _ => 7)
          { sendto_result := 44, bind_status := 0,
            recvfrom_result := .datagram ⟨"10.0.0.1", 9000⟩ [47, 111, 107, 0] }).1) ∧
    OSC_SIZE (literal "10.0.0.5") = .ok 12 ∧ (32 + 12 = 44) :=
  ⟨registration_datagram ⟨⟨BROADCAST_IP, OSC_PORT⟩, ⟨"10.0.0.5", 8000⟩⟩ .little (fun _ => 7)
      { sendto_result := 44, bind_status := 0,
        recvfrom_result := .datagram ⟨"10.0.0.1", 9000⟩ [47, 111, 107, 0] }
      (by decide) (by decide),
    by rfl, rfl⟩

/-- C16, as the code has it: `receive` makes no bounds check of its own, so the bounds hold
for the datagrams that fit. For every received well-framed datagram (address, NUL,
padding to the next multiple of 4, type tag, NUL, padding to the next multiple of 4,
payload) whose address has fewer than 64 characters, whose type tag has fewer than
16 characters and whose payload bytes and padding bytes of both strings together
number at most 128, `receive` returns the received byte count, and the populated
message has its address with the terminator inside `address[64]`, its format with
the terminator inside `format[16]` and `0 <= data_size <= 128`: no write lands
outside the three arrays. -/
theorem receive_stays_in_bounds (self : OSCClient) (junk : Nat → Nat) (sender : SocketAddress)
    (msg : OSCMessage) (a P f Q payload : List Nat)
    (ha : 0 ∉ a) (hf : 0 ∉ f)
    (hla : a.length < OSC_SIZE_ADDRESS) (hlf : f.length < OSC_SIZE_FORMAT)
    (hP : P.length = if (a.length + 1) % 4 ≠ 0 then 4 - (a.length + 1) % 4 else 0)
    (hQ : Q.length = if (f.length + 1) % 4 ≠ 0 then 4 - (f.length + 1) % 4 else 0)
    (hdata : payload.length + P.length + Q.length ≤ OSC_SIZE_DATA) :
    ∃ r, self.receive junk
        (.datagram sender (a ++ 0 :: (P ++ (f ++ 0 :: (Q ++ payload))))) msg = .ok r ∧
      r.ret = ((a ++ 0 :: (P ++ (f ++ 0 :: (Q ++ payload)))).length : Nat) ∧
      0 < r.ret ∧ r.ret ≤ OSC_MSG_SIZE ∧
      r.msg.address.length = OSC_SIZE_ADDRESS ∧ c_str r.msg.address = a ∧
      0 ∈ r.msg.address ∧ (c_str r.msg.address).length + 1 ≤ OSC_SIZE_ADDRESS ∧
      r.msg.format.length = OSC_SIZE_FORMAT ∧ c_str r.msg.format = f ∧
      0 ∈ r.msg.format ∧ (c_str r.msg.format).length + 1 ≤ OSC_SIZE_FORMAT ∧
      r.msg.data.length = OSC_SIZE_DATA ∧
      0 ≤ r.msg.data_size ∧ r.msg.data_size ≤ OSC_SIZE_DATA := by
  have hrecv := receive_framed self junk sender msg a P f Q payload ha hf hla hlf hP hQ hdata
  have hP3 : P.length ≤ 3 := by rw [hP]; split <;> omega
  have hQ3 : Q.length ≤ 3 := by rw [hQ]; split <;> omega
  have hdl : (a ++ 0 :: (P ++ (f ++ 0 :: (Q ++ payload)))).length =
      a.length + 1 + P.length + (f.length + 1) + Q.length + payload.length := by
    simp only [List.length_append, List.length_cons]; omega
  have hca : c_str (a ++ List.replicate (OSC_SIZE_ADDRESS - a.length) 0) = a :=
    c_str_padded a _ ha (by omega)
  have hcf : c_str (f ++ List.replicate (OSC_SIZE_FORMAT - f.length) 0) = f :=
    c_str_padded f _ hf (by omega)
  have hza : (0 : Nat) ∈ a ++ List.replicate (OSC_SIZE_ADDRESS - a.length) 0 := by
    apply List.mem_append_right
    exact List.mem_replicate.mpr ⟨by omega, rfl⟩
  have hzf : (0 : Nat) ∈ f ++ List.replicate (OSC_SIZE_FORMAT - f.length) 0 := by
    apply List.mem_append_right
    exact List.mem_replicate.mpr ⟨by omega, rfl⟩
  have htail : payload.length + P.length + Q.length ≤
      (payload ++ (malloc junk OSC_MSG_SIZE).drop
        (a ++ 0 :: (P ++ (f ++ 0 :: (Q ++ payload)))).length).length := by
    rw [List.length_append, List.length_drop, malloc_length, hdl]
    simp only [OSC_SIZE_ADDRESS, OSC_SIZE_FORMAT, OSC_SIZE_DATA] at hla hlf hdata
    simp only [OSC_MSG_SIZE]
    omega
  refine ⟨_, hrecv, rfl, ?_, ?_, ?_, hca, hza, ?_, ?_, hcf, hzf, ?_, ?_, ?_, ?_⟩
  · simp only; rw [hdl]; omega
  · simp only; rw [hdl]
    simp only [OSC_SIZE_ADDRESS, OSC_SIZE_FORMAT, OSC_SIZE_DATA] at hla hlf hdata
    simp only [OSC_MSG_SIZE]
    omega
  · simp only [List.length_append, List.length_replicate]; omega
  · simp only; rw [hca]; omega
  · simp only [List.length_append, List.length_replicate]; omega
  · simp only; rw [hcf]; omega
  · dsimp only
    rw [List.length_append, List.length_take, List.length_replicate, Nat.min_eq_left htail]
    omega
  · simp only; omega
  · simp only; exact_mod_cast hdata

theorem receive_stays_in_bounds_witness :
    ∃ r, OSCClient.receive ⟨⟨"192.168.2.10", 9000⟩, ⟨"192.168.2.77", 8000⟩⟩ (fun _ => 7)
        (.datagram ⟨"192.168.2.10", 9000⟩
          (bytes_of "/a" ++ 0 :: ([0] ++ (bytes_of ",i" ++ 0 :: ([0] ++ [0, 0, 0, 36])))))
        ⟨[], [], [], 0⟩ = .ok r ∧
      r.ret = ((bytes_of "/a" ++ 0 :: ([0] ++ (bytes_of ",i" ++ 0 :: ([0] ++ [0, 0, 0, 36])))).length
        : Nat) ∧
      0 < r.ret ∧ r.ret ≤ OSC_MSG_SIZE ∧
      r.msg.address.length = OSC_SIZE_ADDRESS ∧ c_str r.msg.address = bytes_of "/a" ∧
      0 ∈ r.msg.address ∧ (c_str r.msg.address).length + 1 ≤ OSC_SIZE_ADDRESS ∧
      r.msg.format.length = OSC_SIZE_FORMAT ∧ c_str r.msg.format = bytes_of ",i" ∧
      0 ∈ r.msg.format ∧ (c_str r.msg.format).length + 1 ≤ OSC_SIZE_FORMAT ∧
      r.msg.data.length = OSC_SIZE_DATA ∧
      0 ≤ r.msg.data_size ∧ r.msg.data_size ≤ OSC_SIZE_DATA :=
  receive_stays_in_bounds ⟨⟨"192.168.2.10", 9000⟩, ⟨"192.168.2.77", 8000⟩⟩ (fun _ => 7)
    ⟨"192.168.2.10", 9000⟩ ⟨[], [], [], 0⟩
    (bytes_of "/a") [0] (bytes_of ",i") [0] [0, 0, 0, 36] (by decide) (by decide)
    (by decide) (by decide) (by decide) (by decide) (by decide)

/-- C16 fails: `receive` writes outside the arrays of the message. A 72-byte datagram that
starts with 64 non-NUL bytes makes `strcpy` write 65 bytes into `address[64]`; a type
tag of 16 characters makes it write 17 bytes into `format[16]`; a 208-byte datagram
with 200 payload bytes makes `memcpy` write more than 128 bytes into `data[128]`. -/
theorem receive_overflows_message :
    OSCClient.receive ⟨⟨"192.168.2.10", 9000⟩, ⟨"192.168.2.77", 8000⟩⟩ (fun _ => 0)
        (.datagram ⟨"192.168.2.10", 9000⟩
          (List.replicate 64 97 ++ [0, 0, 0, 0] ++ [44, 0, 0, 0]))
        ⟨[], [], [], 0⟩ = .error .address_overflow ∧
    OSCClient.receive ⟨⟨"192.168.2.10", 9000⟩, ⟨"192.168.2.77", 8000⟩⟩ (fun _ => 0)
        (.datagram ⟨"192.168.2.10", 9000⟩
          ([47, 0, 0, 0] ++ (44 :: List.replicate 15 105) ++ [0, 0, 0, 0]))
        ⟨[], [], [], 0⟩ = .error .format_overflow ∧
    OSCClient.receive ⟨⟨"192.168.2.10", 9000⟩, ⟨"192.168.2.77", 8000⟩⟩ (fun _ => 0)
        (.datagram ⟨"192.168.2.10", 9000⟩
          ([47, 0, 0, 0] ++ [44, 0, 0, 0] ++ List.replicate 200 1))
        ⟨[], [], [], 0⟩ = .error .data_overflow := by
  refine ⟨by rfl, by rfl, by rfl⟩

/-- C17: `osc_dispatch` hands a null pointer to `strcmp` when a path segment is missing. For
the decoded messages with address `/` (no segment), with empty address, and with
address `/pvc_aerophone` (instrument name only), `receive` succeeds and `osc_dispatch`
then compares the null pointer returned by `strtok`: it does not discard. -/
theorem osc_dispatch_compares_null_segment :
    (OSCClient.receive ⟨⟨"192.168.2.10", 9000⟩, ⟨"192.168.2.77", 8000⟩⟩ (fun _ => 0)
        (.datagram ⟨"192.168.2.10", 9000⟩
          (literal "/" ++ [0, 0] ++ literal ",ii" ++ [0, 0, 0, 36, 0, 0, 0, 100]))
        ⟨[], [], [], 0⟩).map
      (fun r => (r.ret, c_str r.msg.address, c_str r.msg.format,
        path_segments (c_str r.msg.address), osc_dispatch .little r.msg)) =
      .ok (16, bytes_of "/", bytes_of ",ii", [], .error .null_pointer) ∧
    (OSCClient.receive ⟨⟨"192.168.2.10", 9000⟩, ⟨"192.168.2.77", 8000⟩⟩ (fun _ => 0)
        (.datagram ⟨"192.168.2.10", 9000⟩
          (literal "" ++ [0, 0, 0] ++ literal ",ii" ++ [0, 0, 0, 36, 0, 0, 0, 100]))
        ⟨[], [], [], 0⟩).map
      (fun r => (r.ret, c_str r.msg.address, c_str r.msg.format,
        path_segments (c_str r.msg.address), osc_dispatch .little r.msg)) =
      .ok (16, [], bytes_of ",ii", [], .error .null_pointer) ∧
    (OSCClient.receive ⟨⟨"192.168.2.10", 9000⟩, ⟨"192.168.2.77", 8000⟩⟩ (fun _ => 0)
        (.datagram ⟨"192.168.2.10", 9000⟩
          (literal "/pvc_aerophone" ++ [0] ++ literal ",ii" ++ [0, 0, 0, 36, 0, 0, 0, 100]))
        ⟨[], [], [], 0⟩).map
      (fun r => (r.ret, c_str r.msg.address, c_str r.msg.format,
        path_segments (c_str r.msg.address), osc_dispatch .little r.msg)) =
      .ok (28, bytes_of "/pvc_aerophone", bytes_of ",ii", [bytes_of "pvc_aerophone"],
        .error .null_pointer) := by
  refine ⟨by rfl, by rfl, by rfl⟩

/-- C18: a short payload is not rejected. The datagram `/pvc_aerophone/play`, `,ii` and
only the 4 bytes `00 00 00 24` of the pitch is decoded by `receive` with
`data_size = 4`; the rest of `data` is zero whatever the receive buffer held before,
because the message is cleared first; `osc_dispatch` invokes the play handler, which
reads velocity 0 and calls `left.play(36, 0)`. -/
theorem short_payload_is_played (self : OSCClient) (junk : Nat → Nat) (sender : SocketAddress)
    (msg : OSCMessage) :
    self.receive junk
        (.datagram sender (literal "/pvc_aerophone/play" ++ literal ",ii" ++ [0, 0, 0, 36])) msg =
      .ok { ret := 28
            msg := { address := bytes_of "/pvc_aerophone/play" ++ List.replicate 45 0
                     format := bytes_of ",ii" ++ List.replicate 13 0
                     data := [0, 0, 0, 36] ++ List.replicate 124 0
                     data_size := 4 }
            self := { self with controller := sender } } ∧
    (4 : Int) < 8 ∧
    play_arguments .little ([0, 0, 0, 36] ++ List.replicate 124 0) = .ok (36, 0) ∧
    osc_dispatch .little
        { address := bytes_of "/pvc_aerophone/play" ++ List.replicate 45 0
          format := bytes_of ",ii" ++ List.replicate 13 0
          data := [0, 0, 0, 36] ++ List.replicate 124 0
          data_size := 4 } = .ok [{ board := .left, pitch := 36, velocity := 0 }] := by
  refine ⟨?_, by decide, by rfl, by rfl⟩
  have hd : literal "/pvc_aerophone/play" ++ literal ",ii" ++ [0, 0, 0, 36] =
      bytes_of "/pvc_aerophone/play" ++ 0 :: ([] ++ (bytes_of ",ii" ++ 0 :: ([] ++ [0, 0, 0, 36]))) := by
    rfl
  rw [hd, receive_framed self junk sender msg (bytes_of "/pvc_aerophone/play") []
    (bytes_of ",ii") [] [0, 0, 0, 36] (by decide) (by decide) (by decide) (by decide)
    (by decide) (by decide) (by decide)]
  rfl

/-- C19: for every message whose address is shorter than 64 characters and whose format is
shorter than 16 characters (with a payload size between 0 and 128), decoding the
stream of `flatten_oscmessage` finds both strings where the encoder put them: the
string part of `receive` reads the address from offset 0 and the type tag from
offset `OSC_SIZE(address)`, ends at offset `OSC_SIZE(address) + OSC_SIZE(format)`,
and decodes the address and the format of the message. Every `receive` call that
completes on this stream returns these two strings, and the call completes whenever
`data_size` plus the padding bytes of the two strings is at most 128. -/
theorem receive_finds_both_strings (self : OSCClient) (junk : Nat → Nat)
    (sender : SocketAddress) (msg0 m : OSCMessage)
    (ha : 0 ∈ m.address) (hf : 0 ∈ m.format)
    (hla : (c_str m.address).length < OSC_SIZE_ADDRESS)
    (hlf : (c_str m.format).length < OSC_SIZE_FORMAT)
    (h0 : 0 ≤ m.data_size) (hmax : m.data_size ≤ OSC_SIZE_DATA)
    (hle : m.data_size ≤ m.data.length) :
    ∃ pal pfl stream,
      OSC_SIZE m.address = .ok pal ∧ OSC_SIZE m.format = .ok pfl ∧
      flatten_oscmessage m = .ok (stream, (pal : Int) + pfl + m.data_size) ∧
      (∀ tail, ∃ s, receive_strings (stream ++ tail) = .ok s ∧
        c_str s.address = c_str m.address ∧ c_str s.format = c_str m.format ∧
        s.format_offset = pal ∧ s.data_offset = pal + pfl) ∧
      (∀ r, self.receive junk (.datagram sender stream) msg0 = .ok r →
        c_str r.msg.address = c_str m.address ∧ c_str r.msg.format = c_str m.format) ∧
      (m.data_size + ((pal - ((c_str m.address).length + 1) : Nat) : Int) +
          ((pfl - ((c_str m.format).length + 1) : Nat) : Int) ≤ OSC_SIZE_DATA →
        ∃ r, self.receive junk (.datagram sender stream) msg0 = .ok r ∧
          r.ret = (pal : Int) + pfl + m.data_size) := by
  obtain ⟨n, hn⟩ := Int.eq_ofNat_of_zero_le h0
  have hn128 : n ≤ OSC_SIZE_DATA := by rw [hn] at hmax; exact_mod_cast hmax
  have hle' : n ≤ m.data.length := by rw [hn] at hle; exact_mod_cast hle
  obtain ⟨pal, hpa, -, -, hpalt⟩ := OSC_SIZE_bounds m.address ha
  obtain ⟨pfl, hpf, -, -, hpflt⟩ := OSC_SIZE_bounds m.format hf
  obtain ⟨hfl, hP, hQ, hpal, hpfl⟩ := flatten_framed m n pal pfl ha hf hpa hpf hn hle'
  have hA0 := c_str_no_nul m.address
  have hF0 := c_str_no_nul m.format
  have hD : (m.data.take n).length = n := by simp [hle']
  simp only [OSC_SIZE_ADDRESS, OSC_SIZE_FORMAT, OSC_SIZE_DATA] at hla hlf hn128
  -- the string part, for any content of the buffer after the stream
  have hstr : ∀ tail, receive_strings
      ((c_str m.address ++ 0 :: (List.replicate (pal - ((c_str m.address).length + 1)) 0 ++
        (c_str m.format ++ 0 :: (List.replicate (pfl - ((c_str m.format).length + 1)) 0 ++
          m.data.take n)))) ++ tail) =
      .ok { address := c_str m.address ++
              List.replicate (OSC_SIZE_ADDRESS - (c_str m.address).length) 0
            format := c_str m.format ++
              List.replicate (OSC_SIZE_FORMAT - (c_str m.format).length) 0
            address_length := (c_str m.address).length + 1
            format_length := (c_str m.format).length + 1
            format_offset := pal
            data_offset := pal + pfl } := by
    intro tail
    have hshape : (c_str m.address ++ 0 :: (List.replicate (pal - ((c_str m.address).length + 1)) 0 ++
        (c_str m.format ++ 0 :: (List.replicate (pfl - ((c_str m.format).length + 1)) 0 ++
          m.data.take n)))) ++ tail =
        c_str m.address ++ 0 :: (List.replicate (pal - ((c_str m.address).length + 1)) 0 ++
        (c_str m.format ++ 0 :: (List.replicate (pfl - ((c_str m.format).length + 1)) 0 ++
          (m.data.take n ++ tail)))) := by
      simp only [List.append_assoc, List.cons_append]
    rw [hshape, receive_strings_framed _ _ _ _ _ hA0 hF0
      (by simp only [OSC_SIZE_ADDRESS]; omega) (by simp only [OSC_SIZE_FORMAT]; omega) hP hQ]
    simp only [List.length_replicate]
    have e1 : (c_str m.address).length + 1 + (pal - ((c_str m.address).length + 1)) = pal := by
      omega
    have e2 : pal + ((c_str m.format).length + 1) + (pfl - ((c_str m.format).length + 1)) =
        pal + pfl := by omega
    rw [e1, e2]
  have hsl : (c_str m.address ++ 0 :: (List.replicate (pal - ((c_str m.address).length + 1)) 0 ++
        (c_str m.format ++ 0 :: (List.replicate (pfl - ((c_str m.format).length + 1)) 0 ++
          m.data.take n)))).length = pal + pfl + n := by
    simp only [List.length_append, List.length_cons, List.length_replicate, hD]; omega
  have hca : c_str (c_str m.address ++
      List.replicate (OSC_SIZE_ADDRESS - (c_str m.address).length) 0) = c_str m.address :=
    c_str_padded _ _ hA0 (by simp only [OSC_SIZE_ADDRESS]; omega)
  have hcf : c_str (c_str m.format ++
      List.replicate (OSC_SIZE_FORMAT - (c_str m.format).length) 0) = c_str m.format :=
    c_str_padded _ _ hF0 (by simp only [OSC_SIZE_FORMAT]; omega)
  have hne : (c_str m.address ++ 0 :: (List.replicate (pal - ((c_str m.address).length + 1)) 0 ++
        (c_str m.format ++ 0 :: (List.replicate (pfl - ((c_str m.format).length + 1)) 0 ++
          m.data.take n)))) ≠ [] := by simp
  have hrd := receive_datagram self junk sender _ msg0 hne
    (by rw [hsl]; simp only [OSC_MSG_SIZE]; omega)
  generalize c_str m.address ++ 0 :: (List.replicate (pal - ((c_str m.address).length + 1)) 0 ++
        (c_str m.format ++ 0 :: (List.replicate (pfl - ((c_str m.format).length + 1)) 0 ++
          m.data.take n))) = stream at hfl hstr hsl hne hrd
  refine ⟨pal, pfl, stream, hpa, hpf, ?_, ?_, ?_, ?_⟩
  · rw [hfl, hn]; simp only [Nat.cast_add]
  · intro tail
    exact ⟨_, hstr tail, hca, hcf, rfl, rfl⟩
  · intro r hr
    rw [hrd] at hr
    split at hr
    · exact Except.noConfusion hr
    · rename_i m' hm'
      simp only [Except.ok.injEq] at hr
      obtain ⟨s, hs, hsa, hsf, -⟩ := receive_decode_strings _ _ _ hm'
      rw [hstr] at hs
      simp only [Except.ok.injEq] at hs
      rw [← hr]
      simp only
      rw [hsa, hsf, ← hs]
      exact ⟨hca, hcf⟩
  · intro hfit
    rw [hn] at hfit
    have hfit' : n + (pal - ((c_str m.address).length + 1)) +
        (pfl - ((c_str m.format).length + 1)) ≤ OSC_SIZE_DATA := by exact_mod_cast hfit
    obtain ⟨stream', hfl', hsl', hdec⟩ := receive_decode_flatten m n pal pfl
      ((malloc junk OSC_MSG_SIZE).drop (pal + pfl + n)) ha hf
      (by simp only [OSC_SIZE_ADDRESS]; omega) (by simp only [OSC_SIZE_FORMAT]; omega)
      hpa hpf hn hle'
      (by rw [List.length_drop, malloc_length]; simp only [OSC_MSG_SIZE]; omega) hfit'
    rw [hfl] at hfl'
    simp only [Except.ok.injEq, Prod.mk.injEq, and_true] at hfl'
    rw [← hfl'] at hdec
    rw [hrd, hsl, hdec]
    refine ⟨_, rfl, ?_⟩
    simp only [hn, Nat.cast_add]

theorem receive_finds_both_strings_witness :
    ∃ pal pfl stream,
      OSC_SIZE (literal "/a" ++ List.replicate 61 0) = .ok pal ∧
      OSC_SIZE (literal ",i" ++ List.replicate 13 0) = .ok pfl ∧
      flatten_oscmessage ⟨literal "/a" ++ List.replicate 61 0, literal ",i" ++ List.replicate 13 0,
          [0, 0, 0, 36] ++ List.replicate 124 0, 4⟩ = .ok (stream, (pal : Int) + pfl + 4) ∧
      (∀ tail, ∃ s, receive_strings (stream ++ tail) = .ok s ∧
        c_str s.address = c_str (literal "/a" ++ List.replicate 61 0) ∧
        c_str s.format = c_str (literal ",i" ++ List.replicate 13 0) ∧
        s.format_offset = pal ∧ s.data_offset = pal + pfl) ∧
      (∀ r, OSCClient.receive ⟨⟨"192.168.2.10", 9000⟩, ⟨"192.168.2.77", 8000⟩⟩ (fun _ => 7)
          (.datagram ⟨"192.168.2.10", 9000⟩ stream) ⟨[], [], [], 0⟩ = .ok r →
        c_str r.msg.address = c_str (literal "/a" ++ List.replicate 61 0) ∧
        c_str r.msg.format = c_str (literal ",i" ++ List.replicate 13 0)) ∧
      ((4 : Int) + ((pal - ((c_str (literal "/a" ++ List.replicate 61 0)).length + 1) : Nat) : Int) +
          ((pfl - ((c_str (literal ",i" ++ List.replicate 13 0)).length + 1) : Nat) : Int) ≤
          OSC_SIZE_DATA →
        ∃ r, OSCClient.receive ⟨⟨"192.168.2.10", 9000⟩, ⟨"192.168.2.77", 8000⟩⟩ (fun _ => 7)
          (.datagram ⟨"192.168.2.10", 9000⟩ stream) ⟨[], [], [], 0⟩ = .ok r ∧
          r.ret = (pal : Int) + pfl + 4) :=
  receive_finds_both_strings ⟨⟨"192.168.2.10", 9000⟩, ⟨"192.168.2.77", 8000⟩⟩ (fun _ => 7)
    ⟨"192.168.2.10", 9000⟩ ⟨[], [], [], 0⟩
    ⟨literal "/a" ++ List.replicate 61 0, literal ",i" ++ List.replicate 13 0,
      [0, 0, 0, 36] ++ List.replicate 124 0, 4⟩
    (by decide) (by decide) (by decide) (by decide) (by decide) (by decide) (by decide)

/-- C20: for every accepted play message (address segments `pvc_aerophone`, `play`; type tag
`,ii`) the play handler decodes a pitch below `2^32` that selects at most one driver
board: below 48 the only call is `left.play(pitch, velocity)`, from 48 to 59 the only
call is `right.play(pitch, velocity)`, from 60 on no board is called. A negative
pitch sent as a big-endian signed integer is decoded on the little-endian target as
a value of at least `2^31` and calls no board. -/
theorem play_selects_at_most_one_board (host : Endian) (msg : OSCMessage)
    (rest : List (List Nat))
    (ha : 0 ∈ msg.address)
    (hseg : path_segments (c_str msg.address) =
      bytes_of INSTRUMENT_NAME :: bytes_of "play" :: rest)
    (hf : 0 ∈ msg.format) (hfmt : c_str msg.format = bytes_of ",ii")
    (hdata : 8 ≤ msg.data.length) :
    ∃ pitch velocity, play_arguments host msg.data = .ok (pitch, velocity) ∧
      pitch < 2 ^ 32 ∧
      (pitch < 48 →
        osc_dispatch host msg = .ok [{ board := .left, pitch := pitch, velocity := velocity }]) ∧
      (48 ≤ pitch → pitch < 60 →
        osc_dispatch host msg = .ok [{ board := .right, pitch := pitch, velocity := velocity }]) ∧
      (60 ≤ pitch → osc_dispatch host msg = .ok []) ∧
      (∀ v : Int, v < 0 → -2147483648 ≤ v → host = .little →
        msg.data.take 4 = bytes_of_u32 .big (v % 4294967296).toNat →
        pitch = (v + 4294967296).toNat ∧ osc_dispatch host msg = .ok []) := by
  obtain ⟨pitch, velocity, hp, hlt, -, hpv⟩ := play_arguments_ok host msg.data hdata
  have hc := strcmp_eq_of_c_str msg.format ",ii" hf hfmt
  have hd : osc_dispatch host msg =
      if pitch < 48 then .ok [{ board := .left, pitch := pitch, velocity := velocity }]
      else if pitch < 60 then .ok [{ board := .right, pitch := pitch, velocity := velocity }]
      else .ok [] := by
    rw [osc_dispatch_by_segments host msg ha, hseg]
    simp only [ne_eq, not_true_eq_false, if_false, if_true, hc, Bool.not_true,
      Bool.false_eq_true, hp]
  have h60 : 60 ≤ pitch → osc_dispatch host msg = .ok [] := by
    intro h
    rw [hd, if_neg (by omega), if_neg (by omega)]
  refine ⟨pitch, velocity, hp, by norm_num; exact hlt, ?_, ?_, h60, ?_⟩
  · intro h
    rw [hd, if_pos h]
  · intro h1 h2
    rw [hd, if_neg (by omega), if_pos h2]
  · intro v hneg hmin hhost htake
    subst hhost
    obtain ⟨hval, hge⟩ := negative_pitch_decoded v hneg hmin
    rw [htake, hval] at hpv
    exact ⟨hpv, h60 (by omega)⟩

theorem play_selects_at_most_one_board_witness :
    ∃ pitch velocity,
      play_arguments .little ([255, 255, 255, 254, 0, 0, 0, 100] ++ List.replicate 120 0) =
        .ok (pitch, velocity) ∧
      pitch < 2 ^ 32 ∧
      (pitch < 48 →
        osc_dispatch .little
          ⟨literal "/pvc_aerophone/play", literal ",ii",
            [255, 255, 255, 254, 0, 0, 0, 100] ++ List.replicate 120 0, 8⟩ =
          .ok [{ board := .left, pitch := pitch, velocity := velocity }]) ∧
      (48 ≤ pitch → pitch < 60 →
        osc_dispatch .little
          ⟨literal "/pvc_aerophone/play", literal ",ii",
            [255, 255, 255, 254, 0, 0, 0, 100] ++ List.replicate 120 0, 8⟩ =
          .ok [{ board := .right, pitch := pitch, velocity := velocity }]) ∧
      (60 ≤ pitch →
        osc_dispatch .little
          ⟨literal "/pvc_aerophone/play", literal ",ii",
            [255, 255, 255, 254, 0, 0, 0, 100] ++ List.replicate 120 0, 8⟩ = .ok []) ∧
      (∀ v : Int, v < 0 → -2147483648 ≤ v → Endian.little = .little →
        ([255, 255, 255, 254, 0, 0, 0, 100] ++ List.replicate 120 0).take 4 =
          bytes_of_u32 .big (v % 4294967296).toNat →
        pitch = (v + 4294967296).toNat ∧
        osc_dispatch .little
          ⟨literal "/pvc_aerophone/play", literal ",ii",
            [255, 255, 255, 254, 0, 0, 0, 100] ++ List.replicate 120 0, 8⟩ = .ok []) :=
  play_selects_at_most_one_board .little
    ⟨literal "/pvc_aerophone/play", literal ",ii",
      [255, 255, 255, 254, 0, 0, 0, 100] ++ List.replicate 120 0, 8⟩ []
    (by decide) (by decide) (by decide) (by decide) (by decide)

end PvcAerophone
